import Mathlib

/-!
Verification of the wwiseutil container library (Go) against its
natural-language specification.  The definitions below are a shallow
embedding of the source files `wwise/container.go`, `bnk/file.go`,
`bnk/object.go`, `bnk/bnk.go`, the pck package and the util package.
Machine integers are modelled as `Nat`/`Int`; every place where the Go
code converts to `uint32` (truncation) or updates a `uint32` field is
modelled with an explicit `% 2^32`; Go `byte` counters are modelled with
`% 256`.  A Go runtime panic (out-of-range slice index, nil-map insert,
explicit `panic`) is modelled as an exceptional result carrying the
state at the time of the panic.
-/

namespace wwise

/-- Go `uint32(x)` conversion of an `int64` value: truncation to the low
32 bits, i.e. `x` modulo `2^32` (Euclidean, hence non-negative). -/
def u32 (x : Int) : Nat := (x.emod (2 ^ 32)).toNat

/-- `wwise.WemDescriptor` (container.go lines 46-53): id, offset and
length of a single wem.  All three fields are `uint32` in the source. -/
structure WemDescriptor where
  WemId : Nat
  Offset : Nat
  Length : Nat
deriving DecidableEq

/-- `wwise.Wem` (container.go lines 35-42).  The byte reader is not
relevant to the replacement engine; the padding reader is observed only
through `Padding.Size()` (an `int64`), modelled by `PaddingSize`. -/
structure Wem where
  Descriptor : WemDescriptor
  PaddingSize : Int
deriving DecidableEq

/-- `wwise.ReplacementWem` (container.go lines 56-64): `WemIndex` is a Go
`int`, `Length` an `int64`. -/
structure ReplacementWem where
  WemIndex : Int
  Length : Int
deriving DecidableEq

/-- The comparison used by `ByWemIndex` (container.go lines 142-144). -/
def byWemIndexLe (a b : ReplacementWem) : Prop := a.WemIndex ≤ b.WemIndex

instance : DecidableRel byWemIndexLe :=
  fun a b => inferInstanceAs (Decidable (a.WemIndex ≤ b.WemIndex))

instance : IsTotal ReplacementWem byWemIndexLe :=
  ⟨fun a b => Int.le_total a.WemIndex b.WemIndex⟩

instance : IsTrans ReplacementWem byWemIndexLe :=
  ⟨fun _ _ _ hab hbc => le_trans hab hbc⟩

/-- One pass of the offset-shifting inner loop of `ReplaceWems`
(container.go lines 113-128, bnk/file.go lines 195-210), with an
explicit fuel argument bounding the remaining iterations (the loop runs
at most `wems.length - wi` times, since each iteration advances `wi` by
one and the list length never changes). -/
def shiftLoopF : Nat → List Wem → Nat → Option Int → Int → List Wem
  | 0, wems, _, _, _ => wems
  | f + 1, wems, wi, next, surplus =>
    if h : wi < wems.length then
      let w := wems.get ⟨wi, h⟩
      let wems' := wems.set wi
        { w with Descriptor :=
          { w.Descriptor with Offset := (w.Descriptor.Offset + u32 surplus) % 2 ^ 32 } }
      if next = some (wi : Int) then wems'
      else shiftLoopF f wems' (wi + 1) next surplus
    else wems

/-- The offset-shifting inner loop of `ReplaceWems` (container.go lines
113-128, bnk/file.go lines 195-210): starting at index `wi`, add
`uint32(surplus)` to each subsequent wem's offset (uint32 addition),
stopping after the index equal to the next replacement's `WemIndex`. -/
def shiftLoop (wems : List Wem) (wi : Nat) (next : Option Int) (surplus : Int) :
    List Wem :=
  shiftLoopF (wems.length - wi) wems wi next surplus

/-- The body of one iteration of the `ReplaceWems` loop (container.go
lines 87-128, bnk/file.go lines 170-210): swap the wem's reader,
recompute padding and surplus, store the truncated new length, and shift
subsequent offsets up to and including the next request's index.
`wem` is the element of `wems` at `idx` and `next` is the next pending
request's `WemIndex`, if any. -/
def replaceBody (wems : List Wem) (surplus : Int) (r : ReplacementWem)
    (idx : Nat) (wem : Wem) (next : Option Int) : List Wem × Int :=
  let newLength : Int := r.Length
  let oldLength : Int := wem.Descriptor.Length
  let sp : Int × Int :=
    if newLength > oldLength then
      let s := surplus + (newLength - oldLength)
      let p := 16 - Int.tmod ((wem.Descriptor.Offset : Int) + newLength) 16
      (s + (p - wem.PaddingSize), p)
    else
      (surplus, wem.PaddingSize + (oldLength - newLength))
  let wems' := wems.set idx
    { wem with
      Descriptor := { wem.Descriptor with Length := u32 newLength },
      PaddingSize := sp.2 }
  let wems'' :=
    if sp.1 > 0 then shiftLoop wems' (idx + 1) next sp.1
    else wems'
  (wems'', sp.1)

/-- The main loop of `wwise.ReplaceWems` (container.go lines 85-129,
duplicated in bnk/file.go lines 168-211), acting on the already-sorted
request list.  Indexing `ctn.Wems()[r.WemIndex]` with an out-of-range
index panics in Go; the panic is modelled as `.error` carrying the wem
list at the time of the panic. -/
def replaceLoop : List Wem → Int → List ReplacementWem →
    Except (List Wem) (List Wem × Int)
  | wems, surplus, [] => .ok (wems, surplus)
  | wems, surplus, r :: rest =>
    if h : 0 ≤ r.WemIndex ∧ r.WemIndex.toNat < wems.length then
      let b := replaceBody wems surplus r r.WemIndex.toNat
        (wems.get ⟨r.WemIndex.toNat, h.2⟩) (rest.head?.map ReplacementWem.WemIndex)
      replaceLoop b.1 b.2 rest
    else .error wems

/-- `wwise.ReplaceWems` (container.go lines 78-132): sort the requests by
`WemIndex` ascending (Go uses an unspecified comparison sort through
`sort.Sort`; any comparison sort is an adequate model) and run the
replacement loop with an initial surplus of 0.  Returns the final wem
list and the net surplus, or the panic state. -/
def ReplaceWems (wems : List Wem) (rs : List ReplacementWem) :
    Except (List Wem) (List Wem × Int) :=
  replaceLoop wems 0 (List.insertionSort byWemIndexLe rs)

/-- The effect of one iteration of the offset-shifting loop on a wem
(container.go line 120). -/
def shiftWem (s : Int) (w : Wem) : Wem :=
  { w with Descriptor :=
    { w.Descriptor with Offset := (w.Descriptor.Offset + u32 s) % 2 ^ 32 } }

/-- The end of the region occupied by a wem: offset + length + padding. -/
def wemEnd (w : Wem) : Int :=
  (w.Descriptor.Offset : Int) + (w.Descriptor.Length : Int) + w.PaddingSize

/-- Spec invariant (2): each wem's region ends exactly at the next
wem's offset. -/
def chainOK (ws : List Wem) : Prop :=
  List.Chain' (fun a b => wemEnd a = (b.Descriptor.Offset : Int)) ws

instance chainOK.instDecidable (ws : List Wem) : Decidable (chainOK ws) :=
  inferInstanceAs (Decidable (List.Chain' _ ws))

/-- The right-hand side of spec invariant (3): the sum of length plus
padding over all wems. -/
def sumLP (ws : List Wem) : Int :=
  (ws.map (fun w => (w.Descriptor.Length : Int) + w.PaddingSize)).sum

/-- An upper bound on the surplus a request list can generate: each
request adds at most its new length plus one full alignment gap. -/
def reqBound (rs : List ReplacementWem) : Int :=
  (rs.map (fun r => r.Length + 16)).sum

/-- A wem whose padding is the minimal 16-byte-alignment padding:
non-negative, below 16, and ending on a 16-byte boundary. -/
def minimalPadding (w : Wem) : Prop :=
  0 ≤ w.PaddingSize ∧ w.PaddingSize < 16 ∧ wemEnd w % 16 = 0

instance minimalPadding.instDecidable (w : Wem) : Decidable (minimalPadding w) :=
  inferInstanceAs (Decidable (0 ≤ w.PaddingSize ∧ w.PaddingSize < 16 ∧ wemEnd w % 16 = 0))

/-- The index the next pending request will replace, or the wem count
when no request is pending. -/
def headIdx (rs : List ReplacementWem) (n : Nat) : Nat :=
  match rs with
  | [] => n
  | r :: _ => r.WemIndex.toNat

/-- The surplus contributed by one replacement: zero for a shrink, and
the change of the occupied region (new length plus recomputed padding,
minus old length plus old padding) for a growth. -/
def growDelta (w : Wem) (r : ReplacementWem) : Int :=
  if (w.Descriptor.Length : Int) < r.Length then
    (r.Length + (16 - ((w.Descriptor.Offset : Int) + r.Length).tmod 16)) -
      ((w.Descriptor.Length : Int) + w.PaddingSize)
  else 0

/-- The wem produced by one replacement: truncated new length, and the
recomputed (growth) or extended (shrink) padding. -/
def replacedWem (w : Wem) (r : ReplacementWem) : Wem :=
  { Descriptor := { w.Descriptor with Length := u32 r.Length },
    PaddingSize :=
      if (w.Descriptor.Length : Int) < r.Length then
        16 - ((w.Descriptor.Offset : Int) + r.Length).tmod 16
      else w.PaddingSize + ((w.Descriptor.Length : Int) - r.Length) }

end wwise

namespace bnk

export wwise (WemDescriptor Wem ReplacementWem u32)

/-- The `DATA` section as seen by the replacement engine (bnk/bnk.go
lines 43-49, bnk/object.go lines 612-618): its header length (`uint32`)
and the wem list. -/
structure DataSection where
  HeaderLength : Nat
  Wems : List wwise.Wem
deriving DecidableEq

/-- `bnk.File.ReplaceWems` (bnk/file.go lines 161-216): run the engine
on the DATA section's wems and, when the surplus is positive, add
`uint32(surplus)` to the DATA section header length.  A missing DATA
section would be a nil dereference in Go (panic), modelled as `.error`. -/
def DataSection.ReplaceWems (ds : DataSection) (rs : List wwise.ReplacementWem) :
    Except (List wwise.Wem) DataSection :=
  match wwise.ReplaceWems ds.Wems rs with
  | .error ws => .error ws
  | .ok (ws, surplus) =>
    .ok { HeaderLength :=
            if surplus > 0 then (ds.HeaderLength + u32 surplus) % 2 ^ 32
            else ds.HeaderLength,
          Wems := ws }

/-- Result of a parsing routine: a value, a returned error (`error`
result in Go, e.g. a short read), or a runtime panic (crash). -/
inductive ParseResult (α : Type) where
  | ok (val : α)
  | err
  | crash
deriving DecidableEq

/-- Association-list model of a Go `map` lookup (`m[k]`). -/
def alistLookup {α : Type} : List (Nat × α) → Nat → Option α
  | [], _ => none
  | (k2, v) :: rest, k => if k2 = k then some v else alistLookup rest k

/-- Association-list model of a Go `map` assignment (`m[k] = v`). -/
def alistInsert {α : Type} : List (Nat × α) → Nat → α → List (Nat × α)
  | [], k, v => [(k, v)]
  | (k2, v2) :: rest, k, v =>
    if k2 = k then (k, v) :: rest else (k2, v2) :: alistInsert rest k v

/-- Association-list model of a Go `delete(m, k)`. -/
def alistErase {α : Type} : List (Nat × α) → Nat → List (Nat × α)
  | [], _ => []
  | (k2, v2) :: rest, k =>
    if k2 = k then rest else (k2, v2) :: alistErase rest k

/-- `bnk.DataIndexSection` (bnk/object.go lines 600-609): header length,
wem count, ids in file order, and the id-to-descriptor map. -/
structure DataIndexSection where
  HeaderLength : Nat
  WemCount : Nat
  WemIds : List Nat
  DescriptorMap : List (Nat × WemDescriptor)
deriving DecidableEq

/-- The read loop of `SectionHeader.NewDataIndexSection` (bnk/object.go
lines 705-718; the same loop, with the same panic, is at bnk/bnk.go
lines 169-186): read `n` more `WemDescriptor` records from the stream;
a short stream is a `binary.Read` error; a repeated wem id hits the
explicit `panic("%d is an illegal repeated wem ID in the DIDX")`. -/
def NewDataIndexSectionLoop :
    Nat → List WemDescriptor → DataIndexSection → ParseResult DataIndexSection
  | 0, _, sec => .ok sec
  | _ + 1, [], _ => .err
  | n + 1, d :: rest, sec =>
    if (alistLookup sec.DescriptorMap d.WemId).isSome then .crash
    else
      NewDataIndexSectionLoop n rest
        { sec with
          WemIds := sec.WemIds ++ [d.WemId],
          DescriptorMap := sec.DescriptorMap ++ [(d.WemId, d)] }

/-- `SectionHeader.NewDataIndexSection` (bnk/object.go lines 698-721):
`wemCount = hdr.Length / 12`, then read that many records.  The input
stream is modelled as the list of `WemDescriptor` records available to
`binary.Read`. -/
def NewDataIndexSection (hdrLength : Nat) (stream : List WemDescriptor) :
    ParseResult DataIndexSection :=
  NewDataIndexSectionLoop (hdrLength / 12) stream ⟨hdrLength, hdrLength / 12, [], []⟩

/-- The wem-building loop of `SectionHeader.NewDataSection`
(bnk/object.go lines 755-784): one wem per DIDX id, with padding
(`RemainingLength`) equal to the gap from the wem's end to the next
wem's offset, or to the end of the data region (`hdr.Length`) for the
last wem.  A missing map entry yields Go's zero-value descriptor. -/
def buildWems (hdrLength : Nat) (dmap : List (Nat × WemDescriptor)) :
    List Nat → List wwise.Wem
  | [] => []
  | [id] =>
    let d := (alistLookup dmap id).getD ⟨0, 0, 0⟩
    [⟨d, (hdrLength : Int) - ((d.Offset : Int) + (d.Length : Int))⟩]
  | id :: id2 :: rest =>
    let d := (alistLookup dmap id).getD ⟨0, 0, 0⟩
    let d2 := (alistLookup dmap id2).getD ⟨0, 0, 0⟩
    ⟨d, (d2.Offset : Int) - ((d.Offset : Int) + (d.Length : Int))⟩ ::
      buildWems hdrLength dmap (id2 :: rest)

/-- One section of the input stream, as decomposed by the 8-byte header
dispatch of `bnk.NewFile` (bnk/file.go lines 64-110).  The byte-level
reading of headers and opaque payloads is abstracted; a `didx` event
carries the descriptor records available to the DIDX body reader. -/
inductive SectionData where
  | bkhd (hdrLength : Nat)
  | didx (hdrLength : Nat) (descs : List WemDescriptor)
  | data (hdrLength : Nat)
  | hirc (hdrLength : Nat)
  | unknown (hdrLength : Nat)
deriving DecidableEq

/-- Whether a section event is a `DATA` section. -/
def SectionData.isData : SectionData → Bool
  | .data _ => true
  | _ => false

/-- `bnk.File` as built by `NewFile` (bnk/file.go lines 19-28), with the
fields the parsing and replacement claims observe.  The HIRC object
section is kept abstract at parse time (its parser is exercised by the
loop-editor model below). -/
structure File where
  BankHeaderSection : Option Nat
  IndexSection : Option DataIndexSection
  DataSection : Option DataSection
deriving DecidableEq

/-- The section-dispatch loop of `bnk.NewFile` (bnk/file.go lines
64-110).  A `DATA` section read while `bnk.IndexSection` is still nil
dereferences a nil pointer inside `NewDataSection` (bnk/object.go line
755 iterates `idx.WemIds`), i.e. panics. -/
def NewFileLoop : List SectionData → File → ParseResult File
  | [], bnk => .ok bnk
  | e :: rest, bnk =>
    match e with
    | .bkhd len => NewFileLoop rest { bnk with BankHeaderSection := some len }
    | .didx len descs =>
      match NewDataIndexSection len descs with
      | .ok sec => NewFileLoop rest { bnk with IndexSection := some sec }
      | .err => .err
      | .crash => .crash
    | .data len =>
      match bnk.IndexSection with
      | none => .crash
      | some idx =>
        NewFileLoop rest
          { bnk with DataSection := some ⟨len, buildWems len idx.DescriptorMap idx.WemIds⟩ }
    | .hirc _ => NewFileLoop rest bnk
    | .unknown _ => NewFileLoop rest bnk

/-- `bnk.NewFile` (bnk/file.go lines 60-117): run the section loop and
then reject a file with no DATA section, or a DATA section holding no
wems, with an error (`"There are no wems stored within this file."`). -/
def NewFile (evts : List SectionData) : ParseResult File :=
  match NewFileLoop evts ⟨none, none, none⟩ with
  | .ok bnk =>
    match bnk.DataSection with
    | none => .err
    | some ds => if ds.Wems.length = 0 then .err else .ok bnk
  | .err => .err
  | .crash => .crash

end bnk

namespace bnk

/-- `bnk.LoopValue` (bnk/file.go lines 49-56 of the latest generation). -/
structure LoopValue where
  Loops : Bool
  Value : Nat
deriving DecidableEq

/-- `bnk.ObjectDescriptor` (bnk/object.go lines 34-39); the Go field
`Type` is named `typeId` here because `Type` is reserved in Lean. -/
structure ObjectDescriptor where
  typeId : Nat
  Length : Nat
  ObjectId : Nat
deriving DecidableEq

/-- `bnk.SoundStructure` (bnk/object.go lines 74-83), restricted to the
fields the loop editor reads or writes.  `ParameterCount` is a Go
`byte`; each parameter value is the 4-byte array `[4]byte`. -/
structure SoundStructure where
  ParameterCount : Nat
  ParameterTypes : List Nat
  ParameterValues : List (List Nat)
deriving DecidableEq

/-- `bnk.SfxVoiceSoundObject` (bnk/object.go lines 43-52), restricted to
its descriptor and sound structure. -/
structure SfxVoiceSoundObject where
  Descriptor : ObjectDescriptor
  Structure : SoundStructure
deriving DecidableEq

/-- Modelled from the spec: the `ObjectHierarchySection` type is
referenced by the loop editor (File.ReplaceLoopOf, File.LoopOf) but its
declaration is not among the provided sources.  Per spec sections 4.3
and 4.6 it carries the HIRC section header length, the side index
`loop_of : wem_id -> loop_value`, and the map from a wem id to its sound
object. -/
structure ObjectHierarchySection where
  HeaderLength : Nat
  loopOf : List (Nat × Nat)
  wemToObject : List (Nat × SfxVoiceSoundObject)
deriving DecidableEq

/-- `bnk.File` as used by the loop editor: the DATA section wem list and
the optional HIRC object section (both are pointer fields that may be
nil). -/
structure LoopFile where
  DataSection : Option (List wwise.Wem)
  ObjectSection : Option ObjectHierarchySection
deriving DecidableEq

/-- Modelled from the spec: the constant `parameterLoopType` is used by
the loop editor but declared outside the provided sources; spec section
6.2 fixes the loop parameter type byte to `0x3A`. -/
def parameterLoopType : Nat := 0x3A

/-- `PARAMETER_VALUE_BYTES` (bnk/object.go line 19). -/
def PARAMETER_VALUE_BYTES : Nat := 4

/-- Modelled from the spec: `PARAMETER_TYPE_BYTES` is used by the loop
editor but declared outside the provided sources; a parameter type is a
single byte (spec section 3.1), so the constant is 1. -/
def PARAMETER_TYPE_BYTES : Nat := 1

/-- `binary.LittleEndian.PutUint32`: the four little-endian bytes of a
`uint32` value. -/
def putUint32LE (v : Nat) : List Nat :=
  [v % 256, v / 256 % 256, v / 65536 % 256, v / 16777216 % 256]

/-- `bnk.File.LoopOf` (lines 402-420 of the latest bnk/file.go
generation): default `LoopValue{false, 0}` when the DATA section is nil,
the index is out of range, or the HIRC object section is nil; otherwise
look the wem's id up in the `loopOf` side index. -/
def LoopFile.LoopOf (bnk : LoopFile) (i : Int) : LoopValue :=
  match bnk.DataSection with
  | none => ⟨false, 0⟩
  | some wems =>
    if h : 0 ≤ i ∧ i.toNat < wems.length then
      match bnk.ObjectSection with
      | none => ⟨false, 0⟩
      | some os =>
        let l := alistLookup os.loopOf (wems.get ⟨i.toNat, h.2⟩).Descriptor.WemId
        ⟨l.isSome, l.getD 0⟩
    else ⟨false, 0⟩

/-- `bnk.File.ReplaceLoopOf` (lines 424-497 of the latest bnk/file.go
generation).  Guards: nil DATA section, out-of-range index, nil object
section, unchanged loop value, and no mapped sound object all return
with no mutation.  Removing a loop decrements `ParameterCount` (byte
arithmetic), erases the first `0x3A` parameter slot and subtracts
`PARAMETER_TYPE_BYTES + PARAMETER_VALUE_BYTES = 5` from both the HIRC
header length and the object descriptor length (uint32 arithmetic);
adding a loop appends the parameter and adds 5 to both; overwriting
rewrites the 4-byte value in place. -/
def LoopFile.ReplaceLoopOf (bnk : LoopFile) (i : Int) (loop : LoopValue) : LoopFile :=
  match bnk.DataSection with
  | none => bnk
  | some wems =>
    if h : 0 ≤ i ∧ i.toNat < wems.length then
      let desc := (wems.get ⟨i.toNat, h.2⟩).Descriptor
      match bnk.ObjectSection with
      | none => bnk
      | some os =>
        let old := alistLookup os.loopOf desc.WemId
        let oldLoops := old.isSome
        let oldValue := old.getD 0
        if (oldLoops = false ∧ loop.Loops = false) ∨
            (oldLoops = loop.Loops ∧ oldValue = loop.Value) then bnk
        else
          match alistLookup os.wemToObject desc.WemId with
          | none => bnk
          | some obj =>
            let ss := obj.Structure
            if loop.Loops = false then
              match ss.ParameterTypes.findIdx? (fun t => t = parameterLoopType) with
              | none => bnk
              | some j =>
                let ss' : SoundStructure :=
                  { ParameterCount := (ss.ParameterCount + 255) % 256,
                    ParameterTypes := ss.ParameterTypes.eraseIdx j,
                    ParameterValues := ss.ParameterValues.eraseIdx j }
                let dec := PARAMETER_TYPE_BYTES + PARAMETER_VALUE_BYTES
                let obj' : SfxVoiceSoundObject :=
                  { Descriptor :=
                      { obj.Descriptor with
                        Length := (obj.Descriptor.Length + (2 ^ 32 - dec)) % 2 ^ 32 },
                    Structure := ss' }
                { bnk with ObjectSection := some (
                  { HeaderLength := (os.HeaderLength + (2 ^ 32 - dec)) % 2 ^ 32,
                    loopOf := alistErase os.loopOf desc.WemId,
                    wemToObject := alistInsert os.wemToObject desc.WemId obj' } : ObjectHierarchySection) }
            else
              let lbs := putUint32LE loop.Value
              if oldLoops then
                match ss.ParameterTypes.findIdx? (fun t => t = parameterLoopType) with
                | none => bnk
                | some j =>
                  let ss' : SoundStructure := { ss with ParameterValues := ss.ParameterValues.set j lbs }
                  let obj' : SfxVoiceSoundObject := { obj with Structure := ss' }
                  { bnk with ObjectSection := some (
                    { os with
                      loopOf := alistInsert os.loopOf desc.WemId loop.Value,
                      wemToObject := alistInsert os.wemToObject desc.WemId obj' } : ObjectHierarchySection) }
              else
                let ss' : SoundStructure :=
                  { ParameterCount := (ss.ParameterCount + 1) % 256,
                    ParameterTypes := ss.ParameterTypes ++ [parameterLoopType],
                    ParameterValues := ss.ParameterValues ++ [lbs] }
                let inc := PARAMETER_TYPE_BYTES + PARAMETER_VALUE_BYTES
                let obj' : SfxVoiceSoundObject :=
                  { Descriptor :=
                      { obj.Descriptor with
                        Length := (obj.Descriptor.Length + inc) % 2 ^ 32 },
                    Structure := ss' }
                { bnk with ObjectSection := some (
                  { HeaderLength := (os.HeaderLength + inc) % 2 ^ 32,
                    loopOf := alistInsert os.loopOf desc.WemId loop.Value,
                    wemToObject := alistInsert os.wemToObject desc.WemId obj' } : ObjectHierarchySection) }
    else bnk

end bnk

namespace util

/-- `util.ResettingReader` (util package, resetting file): a sequential
reader over a fixed byte window with a read cursor. -/
structure ResettingReader where
  window : List Nat
  pos : Nat
deriving DecidableEq

/-- `ResettingReader.Read` with a buffer of length `bufLen`: the wrapped
`io.SectionReader` returns `io.EOF` exactly when the cursor is already
at or past the end (in which case the resetting wrapper seeks back to
the window start); otherwise it reads `min bufLen remaining` bytes.
Returns (bytes read, new reader state, EOF flag). -/
def RRread (r : ResettingReader) (bufLen : Nat) :
    List Nat × ResettingReader × Bool :=
  if r.window.length ≤ r.pos then ([], { r with pos := 0 }, true)
  else
    let k := min bufLen (r.window.length - r.pos)
    ((r.window.drop r.pos).take k, { r with pos := r.pos + k }, false)

/-- The `io.Copy` read loop applied to a `ResettingReader`, with an
explicit fuel argument bounding the number of reads (each non-final read
advances the cursor by at least one byte, so `window.length - pos + 1`
reads always suffice). -/
def copyGoF : Nat → ResettingReader → List Nat × ResettingReader × Int
  | 0, r => ([], r, 0)
  | f + 1, r =>
    match RRread r 32768 with
    | (_, r', true) => ([], r', 0)
    | (bs, r', false) =>
      let next := copyGoF f r'
      (bs ++ next.1, next.2.1, (bs.length : Int) + next.2.2)

/-- `io.Copy` applied to a `ResettingReader`: read with a 32768-byte
buffer until EOF, returning the bytes copied, the final reader state and
the byte count. -/
def copyGo (r : ResettingReader) : List Nat × ResettingReader × Int :=
  copyGoF (r.window.length - r.pos + 1) r

end util

namespace pck

/-- `pck.Header` (pck file, lines 219-224 of the latest generation):
4-byte identifier, uint32 length, 44 opaque bytes, uint32 wem count. -/
structure Header where
  Identifier : List Nat
  Length : Nat
  Unknown : List Nat
  WemCount : Nat
deriving DecidableEq

/-- `pck.DataIndex` (lines 228-234 of the latest generation). -/
structure DataIndex where
  typeId : Nat
  Descriptor : wwise.WemDescriptor
  Unknown : Nat
deriving DecidableEq

/-- `pck.File` (lines 210-216 of the latest generation): header, index
entries, the 4-byte opaque field, and one restartable wem reader per
index entry (built by `newWem`, lines 457-470). -/
structure File where
  Header : Header
  Indexes : List DataIndex
  Padding : Nat
  wems : List util.ResettingReader
deriving DecidableEq

/-- `Header.WriteTo` (lines 377-384): `binary.Write` of the header
struct, 56 bytes. -/
def Header.WriteTo (h : Header) : List Nat :=
  h.Identifier ++ bnk.putUint32LE h.Length ++ h.Unknown ++ bnk.putUint32LE h.WemCount

/-- `DataIndex.WriteTo` (lines 423-455): id, type, length, offset,
unknown, each as 4 little-endian bytes. -/
def DataIndex.WriteTo (idx : DataIndex) : List Nat :=
  bnk.putUint32LE idx.Descriptor.WemId ++ bnk.putUint32LE idx.typeId ++
    bnk.putUint32LE idx.Descriptor.Length ++ bnk.putUint32LE idx.Descriptor.Offset ++
    bnk.putUint32LE idx.Unknown

/-- The wem-copying loop of `pck.File.WriteTo` (lines 297-303): `io.Copy`
each wem reader in order, threading reader states. -/
def writeWems : List util.ResettingReader →
    List Nat × List util.ResettingReader × Int
  | [] => ([], [], 0)
  | r :: rest =>
    let c := util.copyGo r
    let next := writeWems rest
    (c.1 ++ next.1, c.2.1 :: next.2.1, c.2.2 + next.2.2)

/-- `pck.File.WriteTo` (lines 277-306): header, index entries, the
4-byte opaque field, then every wem's bytes.  Returns the bytes written,
the reported total, and the file with its (possibly advanced, then
reset) reader states. -/
def File.WriteTo (f : File) : List Nat × Int × File :=
  let hb := f.Header.WriteTo
  let ib := (f.Indexes.map DataIndex.WriteTo).flatten
  let pb := bnk.putUint32LE f.Padding
  let ww := writeWems f.wems
  (hb ++ ib ++ pb ++ ww.1,
   56 + 20 * (f.Indexes.length : Int) + 4 + ww.2.2,
   { f with wems := ww.2.1 })

end pck


/-! ### Helper lemmas about the offset-shifting loop -/

namespace wwise

theorem shiftLoopF_length (next : Option Int) (s : Int) :
    ∀ (f : Nat) (wems : List Wem) (wi : Nat),
      (shiftLoopF f wems wi next s).length = wems.length := by
  intro f
  induction f with
  | zero => intro wems wi; rfl
  | succ f ih =>
    intro wems wi
    rw [shiftLoopF]
    split
    · split
      · simp [List.length_set]
      · rw [ih]
        simp [List.length_set]
    · rfl

theorem length_shiftLoop (wems : List Wem) (wi : Nat) (next : Option Int) (s : Int) :
    (shiftLoop wems wi next s).length = wems.length :=
  shiftLoopF_length next s _ wems wi

theorem shiftLoopF_getElem_lt (next : Option Int) (s : Int) :
    ∀ (f : Nat) (wems : List Wem) (wi i : Nat), i < wi →
      (shiftLoopF f wems wi next s)[i]? = wems[i]? := by
  intro f
  induction f with
  | zero => intro wems wi i _; rfl
  | succ f ih =>
    intro wems wi i hi
    rw [shiftLoopF]
    split
    · rename_i hlt
      have hne : wi ≠ i := by omega
      split
      · simp [List.getElem?_set_ne hne]
      · rw [ih _ _ _ (by omega)]
        simp [List.getElem?_set_ne hne]
    · rfl

theorem shiftLoop_getElem_lt (wems : List Wem) (wi : Nat) (next : Option Int)
    (s : Int) (i : Nat) (hi : i < wi) :
    (shiftLoop wems wi next s)[i]? = wems[i]? :=
  shiftLoopF_getElem_lt next s _ wems wi i hi

theorem shiftLoopF_getElem_none (s : Int) :
    ∀ (f : Nat) (wems : List Wem) (wi i : Nat), wems.length - wi ≤ f →
      (shiftLoopF f wems wi none s)[i]? =
        if wi ≤ i then (wems[i]?).map (shiftWem s) else wems[i]? := by
  intro f
  induction f with
  | zero =>
    intro wems wi i h
    show wems[i]? = _
    split
    · rename_i hle
      rw [List.getElem?_eq_none (by omega)]
      rfl
    · rfl
  | succ f ih =>
    intro wems wi i h
    rw [shiftLoopF]
    split
    · rename_i hlt
      simp only [reduceCtorEq, if_false]
      rw [ih _ _ _ (by simp only [List.length_set]; omega)]
      by_cases hi : wi ≤ i
      · by_cases hieq : i = wi
        · subst hieq
          rw [if_neg (by omega), if_pos le_rfl]
          rw [List.getElem?_set_self hlt]
          rw [List.getElem?_eq_getElem hlt]
          rfl
        · rw [if_pos (by omega), if_pos hi,
            List.getElem?_set_ne (by omega)]
      · rw [if_neg (by omega), if_neg hi, List.getElem?_set_ne (by omega)]
    · rename_i hge
      split
      · rename_i hle
        rw [List.getElem?_eq_none (by omega)]
        rfl
      · rfl

theorem shiftLoop_getElem_none (wems : List Wem) (wi : Nat) (s : Int) (i : Nat) :
    (shiftLoop wems wi none s)[i]? =
      if wi ≤ i then (wems[i]?).map (shiftWem s) else wems[i]? :=
  shiftLoopF_getElem_none s _ wems wi i le_rfl

theorem shiftLoopF_getElem_stop (s : Int) (t : Nat) :
    ∀ (f : Nat) (wems : List Wem) (wi i : Nat), wems.length - wi ≤ f →
      wi ≤ t → t < wems.length →
      (shiftLoopF f wems wi (some (t : Int)) s)[i]? =
        if wi ≤ i ∧ i ≤ t then (wems[i]?).map (shiftWem s) else wems[i]? := by
  intro f
  induction f with
  | zero =>
    intro wems wi i h hwt htl
    omega
  | succ f ih =>
    intro wems wi i h hwt htl
    rw [shiftLoopF]
    have hlt : wi < wems.length := by omega
    rw [dif_pos hlt]
    by_cases hstop : wi = t
    · subst hstop
      rw [if_pos (by rfl)]
      by_cases hieq : i = wi
      · subst hieq
        rw [if_pos ⟨le_rfl, le_rfl⟩, List.getElem?_set_self hlt,
          List.getElem?_eq_getElem hlt]
        rfl
      · rw [List.getElem?_set_ne (by omega)]
        rw [if_neg (by omega)]
    · rw [if_neg (by simp; omega)]
      rw [ih _ _ _ (by simp only [List.length_set]; omega) (by omega)
        (by simp only [List.length_set]; omega)]
      by_cases hieq : i = wi
      · subst hieq
        rw [if_neg (by omega), if_pos ⟨le_rfl, by omega⟩,
          List.getElem?_set_self hlt, List.getElem?_eq_getElem hlt]
        rfl
      · by_cases hcond : wi ≤ i ∧ i ≤ t
        · rw [if_pos (by omega), if_pos hcond, List.getElem?_set_ne (by omega)]
        · rw [if_neg (by omega), if_neg hcond, List.getElem?_set_ne (by omega)]

theorem shiftLoop_getElem_stop (wems : List Wem) (wi : Nat) (s : Int) (t : Nat)
    (hwt : wi ≤ t) (htl : t < wems.length) (i : Nat) :
    (shiftLoop wems wi (some (t : Int)) s)[i]? =
      if wi ≤ i ∧ i ≤ t then (wems[i]?).map (shiftWem s) else wems[i]? :=
  shiftLoopF_getElem_stop s t _ wems wi i le_rfl hwt htl

theorem replaceBody_spec (wems : List Wem) (surplus : Int) (r : ReplacementWem)
    (idx : Nat) (wem : Wem) (next : Option Int) :
    replaceBody wems surplus r idx wem next =
      (if surplus + growDelta wem r > 0 then
        shiftLoop (wems.set idx (replacedWem wem r)) (idx + 1) next
          (surplus + growDelta wem r)
      else wems.set idx (replacedWem wem r),
      surplus + growDelta wem r) := by
  by_cases hg : (wem.Descriptor.Length : Int) < r.Length
  · simp only [replaceBody, growDelta, replacedWem, gt_iff_lt, if_pos hg]
    have harith :
        surplus + (r.Length - (wem.Descriptor.Length : Int)) +
          (16 - ((wem.Descriptor.Offset : Int) + r.Length).tmod 16 - wem.PaddingSize) =
        surplus + ((r.Length + (16 - ((wem.Descriptor.Offset : Int) + r.Length).tmod 16)) -
          ((wem.Descriptor.Length : Int) + wem.PaddingSize)) := by ring
    rw [harith]
  · simp only [replaceBody, growDelta, replacedWem, gt_iff_lt, if_neg hg, add_zero]

theorem replaceBody_length (wems : List Wem) (surplus : Int) (r : ReplacementWem)
    (idx : Nat) (wem : Wem) (next : Option Int) :
    (replaceBody wems surplus r idx wem next).1.length = wems.length := by
  rw [replaceBody_spec]
  simp only []
  split
  · rw [length_shiftLoop, List.length_set]
  · rw [List.length_set]

/-- Every request list containing an out-of-range index makes the
replacement loop end in a panic. -/
theorem replaceLoop_error :
    ∀ (rs : List ReplacementWem) (ws : List Wem) (S : Int),
      (∃ r ∈ rs, r.WemIndex < 0 ∨ (ws.length : Int) ≤ r.WemIndex) →
      ∃ st, replaceLoop ws S rs = .error st := by
  intro rs
  induction rs with
  | nil =>
    intro ws S h
    simp at h
  | cons r0 rest ih =>
    intro ws S h
    rw [replaceLoop]
    by_cases hc : 0 ≤ r0.WemIndex ∧ r0.WemIndex.toNat < ws.length
    · rw [dif_pos hc]
      obtain ⟨r, hmem, hbad⟩ := h
      rcases List.mem_cons.mp hmem with hre | hmem2
      · exfalso
        subst hre
        omega
      · refine ih _ _ ⟨r, hmem2, ?_⟩
        rw [replaceBody_length]
        exact hbad
    · rw [dif_neg hc]
      exact ⟨ws, rfl⟩

end wwise

/-! ### Claims C1, C3, C6 and the counterexamples for C2 and C9 -/

open wwise

/-- C1 counterexample: a SoundBank with one wem at offset 0, length 1,
padding 15, grown to length 16.  `offset + new_length = 16` is a
multiple of 16, so the claim's formula `(16 - ((offset+new) mod 16)) mod
16` yields 0; the code (container.go line 97, bnk/file.go line 179) has
no outer `mod` and sets the padding to 16. -/
theorem C1_counterexample :
    bnk.DataSection.ReplaceWems ⟨16, [⟨⟨1, 0, 1⟩, 15⟩]⟩ [⟨0, 16⟩] =
      .ok ⟨32, [⟨⟨1, 0, 16⟩, 16⟩]⟩ ∧
    ((16 - ((0 + 16) % 16)) % 16 : Int) = 0 ∧ (16 : Int) ≠ 0 := by
  refine ⟨by rfl, by decide, by decide⟩

/-- C1 (amended): for every replacement request that grows a wem, the
engine sets that wem's new padding to `16 - ((offset + new_length) mod
16)`, a value in [1, 16] with no outer reduction; in particular, when
`offset + new_length` is a multiple of 16 the new padding is 16, not 0. -/
theorem C1_theorem (ds : bnk.DataSection) (r : ReplacementWem) (w : Wem)
    (h0 : 0 ≤ r.WemIndex) (hw : ds.Wems[r.WemIndex.toNat]? = some w)
    (hg : (w.Descriptor.Length : Int) < r.Length) :
    ∃ ds', ds.ReplaceWems [r] = .ok ds' ∧
      ds'.Wems[r.WemIndex.toNat]? = some
        { Descriptor := { w.Descriptor with Length := u32 r.Length },
          PaddingSize := 16 - Int.tmod ((w.Descriptor.Offset : Int) + r.Length) 16 } := by
  obtain ⟨hlt, hget⟩ := List.getElem?_eq_some.mp hw
  have hcond : 0 ≤ r.WemIndex ∧ r.WemIndex.toNat < ds.Wems.length := ⟨h0, hlt⟩
  have hwem : ds.Wems.get ⟨r.WemIndex.toNat, hlt⟩ = w := hget
  unfold bnk.DataSection.ReplaceWems ReplaceWems
  have hsort : List.insertionSort byWemIndexLe [r] = [r] := rfl
  rw [hsort, replaceLoop, dif_pos hcond]
  simp only [hwem, replaceBody_spec, replaceLoop]
  have hrw : replacedWem w r =
      { Descriptor := { w.Descriptor with Length := u32 r.Length },
        PaddingSize := 16 - Int.tmod ((w.Descriptor.Offset : Int) + r.Length) 16 } := by
    simp only [replacedWem, if_pos hg]
  split
  · refine ⟨_, rfl, ?_⟩
    rw [shiftLoop_getElem_lt _ _ _ _ _ (by omega)]
    rw [List.getElem?_set_self hlt, hrw]
  · refine ⟨_, rfl, ?_⟩
    rw [List.getElem?_set_self hlt, hrw]

/-- C1 witness: growing the only wem of a concrete SoundBank from
length 1 to length 20 produces padding `16 - (20 mod 16) = 12`. -/
theorem C1_witness :
    ∃ ds', bnk.DataSection.ReplaceWems ⟨16, [⟨⟨1, 0, 1⟩, 15⟩]⟩
        [⟨(0 : Int), (20 : Int)⟩] = .ok ds' ∧
      ds'.Wems[(0 : Int).toNat]? = some
        { Descriptor := { WemId := 1, Offset := 0, Length := u32 20 },
          PaddingSize := 16 - Int.tmod (((0 : Nat) : Int) + 20) 16 } :=
  C1_theorem ⟨16, [⟨⟨1, 0, 1⟩, 15⟩]⟩ ⟨0, 20⟩ ⟨⟨1, 0, 1⟩, 15⟩
    (by decide) (by decide) (by decide)

/-- C3 counterexample: a two-wem SoundBank given requests at indices 0
(a growth) and 5 (out of range).  The operation is not rejected before
the sweep: it processes the in-range request (mutating wem 0 and
shifting wem 1) and then panics on the out-of-range index, so it
crashes rather than failing cleanly, and the panic-time state differs
from the original container. -/
theorem C3_counterexample :
    bnk.DataSection.ReplaceWems ⟨48, [⟨⟨1, 0, 16⟩, 0⟩, ⟨⟨2, 16, 32⟩, 0⟩]⟩
        [⟨0, 20⟩, ⟨5, 4⟩] =
      .error [⟨⟨1, 0, 20⟩, 12⟩, ⟨⟨2, 32, 32⟩, 0⟩] ∧
    ([⟨⟨1, 0, 20⟩, 12⟩, ⟨⟨2, 32, 32⟩, 0⟩] : List Wem) ≠
      [⟨⟨1, 0, 16⟩, 0⟩, ⟨⟨2, 16, 32⟩, 0⟩] := by
  refine ⟨by rfl, by decide⟩

/-- C3 (amended): a replacement list containing a request whose
`wem_index` is out of range is not pre-validated: the operation ends in
a runtime panic (index out of range) when the sweep reaches that
request, and in-range requests sorted before it have already been
applied to the container. -/
theorem C3_theorem (ds : bnk.DataSection) (rs : List ReplacementWem)
    (h : ∃ r ∈ rs, r.WemIndex < 0 ∨ (ds.Wems.length : Int) ≤ r.WemIndex) :
    ∃ st, ds.ReplaceWems rs = .error st := by
  obtain ⟨r, hmem, hbad⟩ := h
  have hmem' : r ∈ List.insertionSort byWemIndexLe rs :=
    (List.perm_insertionSort byWemIndexLe rs).mem_iff.mpr hmem
  obtain ⟨st, hst⟩ := replaceLoop_error _ ds.Wems 0 ⟨r, hmem', hbad⟩
  refine ⟨st, ?_⟩
  unfold bnk.DataSection.ReplaceWems ReplaceWems
  rw [hst]

/-- C3 witness: the concrete two-wem container with an out-of-range
request panics. -/
theorem C3_witness :
    ∃ st, bnk.DataSection.ReplaceWems ⟨48, [⟨⟨1, 0, 16⟩, 0⟩, ⟨⟨2, 16, 32⟩, 0⟩]⟩
        [⟨0, 18⟩, ⟨7, 4⟩] = .error st :=
  C3_theorem ⟨48, [⟨⟨1, 0, 16⟩, 0⟩, ⟨⟨2, 16, 32⟩, 0⟩]⟩ [⟨0, 18⟩, ⟨7, 4⟩]
    ⟨⟨7, 4⟩, by decide, by decide⟩

/-- C6 (confirmed): a single replacement request with
`new_length ≤ old_length` (including 0) sets the wem's padding to
`old_padding + (old_length - new_length)`, leaves every other wem
untouched (in particular their offsets), leaves the replaced wem's
offset unchanged, and leaves the DATA section header length unchanged:
the freed bytes are absorbed entirely by the wem's own padding. -/
theorem C6_theorem (ds : bnk.DataSection) (r : ReplacementWem) (w : Wem)
    (h0 : 0 ≤ r.WemIndex) (hw : ds.Wems[r.WemIndex.toNat]? = some w)
    (hnn : 0 ≤ r.Length) (hle : r.Length ≤ (w.Descriptor.Length : Int))
    (hsz : w.Descriptor.Length < 2 ^ 32) :
    ∃ ds', ds.ReplaceWems [r] = .ok ds' ∧
      ds'.HeaderLength = ds.HeaderLength ∧
      ds'.Wems[r.WemIndex.toNat]? = some
        { Descriptor := { w.Descriptor with Length := r.Length.toNat },
          PaddingSize := w.PaddingSize + ((w.Descriptor.Length : Int) - r.Length) } ∧
      ∀ j, j ≠ r.WemIndex.toNat → ds'.Wems[j]? = ds.Wems[j]? := by
  obtain ⟨hlt, hget⟩ := List.getElem?_eq_some.mp hw
  have hcond : 0 ≤ r.WemIndex ∧ r.WemIndex.toNat < ds.Wems.length := ⟨h0, hlt⟩
  have hwem : ds.Wems.get ⟨r.WemIndex.toNat, hlt⟩ = w := hget
  have hng : ¬ (w.Descriptor.Length : Int) < r.Length := not_lt.mpr hle
  have hdelta : growDelta w r = 0 := by
    simp only [growDelta, if_neg hng]
  have hu : u32 r.Length = r.Length.toNat := by
    unfold u32
    have hmod : r.Length.emod (2 ^ 32) = r.Length :=
      Int.emod_eq_of_lt hnn (by omega)
    rw [hmod]
  unfold bnk.DataSection.ReplaceWems ReplaceWems
  have hsort : List.insertionSort byWemIndexLe [r] = [r] := rfl
  rw [hsort, replaceLoop, dif_pos hcond]
  simp only [hwem, replaceBody_spec, hdelta, add_zero, replaceLoop]
  simp only [gt_iff_lt, lt_self_iff_false, if_false]
  have hrw : replacedWem w r =
      { Descriptor := { w.Descriptor with Length := r.Length.toNat },
        PaddingSize := w.PaddingSize + ((w.Descriptor.Length : Int) - r.Length) } := by
    simp only [replacedWem, if_neg hng, hu]
  refine ⟨_, rfl, rfl, ?_, ?_⟩
  · simp only []
    rw [List.getElem?_set_self hlt, hrw]
  · intro j hj
    simp only []
    rw [List.getElem?_set_ne (by omega)]

/-- C6 witness: shrinking a concrete wem from length 16 to 10 grows its
padding from 0 to 6 and changes nothing else. -/
theorem C6_witness :
    ∃ ds', bnk.DataSection.ReplaceWems ⟨48, [⟨⟨1, 0, 16⟩, 0⟩, ⟨⟨2, 16, 32⟩, 0⟩]⟩
        [⟨(0 : Int), (10 : Int)⟩] = .ok ds' ∧
      ds'.HeaderLength = 48 ∧
      ds'.Wems[(0 : Int).toNat]? = some
        { Descriptor := { WemId := 1, Offset := 0, Length := (10 : Int).toNat },
          PaddingSize := (0 : Int) + (((16 : Nat) : Int) - 10) } ∧
      ∀ j, j ≠ (0 : Int).toNat →
        ds'.Wems[j]? = ([⟨⟨1, 0, 16⟩, 0⟩, ⟨⟨2, 16, 32⟩, 0⟩] : List Wem)[j]? :=
  C6_theorem ⟨48, [⟨⟨1, 0, 16⟩, 0⟩, ⟨⟨2, 16, 32⟩, 0⟩]⟩ ⟨0, 10⟩ ⟨⟨1, 0, 16⟩, 0⟩
    (by decide) (by decide) (by decide) (by decide) (by decide)

/-- C9 counterexample: a wem whose load-time padding is 31 (more than
one alignment gap) grown from length 1 to 2.  The surplus becomes
`(2 - 1) + (14 - 31) = -16`: the value returned by the engine is
negative, so the surplus is not monotone and the DATA header length
would be left stale. -/
theorem C9_counterexample :
    ReplaceWems [⟨⟨1, 0, 1⟩, 31⟩, ⟨⟨2, 32, 16⟩, 0⟩] [⟨0, 2⟩] =
      .ok ([⟨⟨1, 0, 2⟩, 14⟩, ⟨⟨2, 32, 16⟩, 0⟩], -16) ∧
    (-16 : Int) < 0 := by
  refine ⟨by rfl, by decide⟩

/-- C2 counterexample: the two-wem SoundBank `[(off 0, len 4, pad 28),
(off 32, len 16, pad 0)]` with DATA header length 48 satisfies
invariants (1), (2), (3); the single in-range request `(index 0, new
length 5)` grows wem 0, the surplus becomes `(5+11) - (4+28) = -16`, no
offsets are shifted and the header is not updated, so invariants (2)
and (3) both fail afterwards. -/
theorem C2_counterexample :
    ((∀ w ∈ ([⟨⟨1, 0, 4⟩, 28⟩, ⟨⟨2, 32, 16⟩, 0⟩] : List Wem),
        w.Descriptor.Offset % 16 = 0) ∧
      chainOK [⟨⟨1, 0, 4⟩, 28⟩, ⟨⟨2, 32, 16⟩, 0⟩] ∧
      ((48 : Nat) : Int) = sumLP [⟨⟨1, 0, 4⟩, 28⟩, ⟨⟨2, 32, 16⟩, 0⟩]) ∧
    bnk.DataSection.ReplaceWems ⟨48, [⟨⟨1, 0, 4⟩, 28⟩, ⟨⟨2, 32, 16⟩, 0⟩]⟩ [⟨0, 5⟩] =
      .ok ⟨48, [⟨⟨1, 0, 5⟩, 11⟩, ⟨⟨2, 32, 16⟩, 0⟩]⟩ ∧
    ¬ chainOK [⟨⟨1, 0, 5⟩, 11⟩, ⟨⟨2, 32, 16⟩, 0⟩] ∧
    ((48 : Nat) : Int) ≠ sumLP [⟨⟨1, 0, 5⟩, 11⟩, ⟨⟨2, 32, 16⟩, 0⟩] := by
  refine ⟨⟨by decide, ?_, by decide⟩, by rfl, ?_, by decide⟩
  · simp only [chainOK, List.chain'_cons, List.chain'_singleton, wemEnd, and_true]
    decide
  · simp only [chainOK, List.chain'_cons, List.chain'_singleton, wemEnd, and_true]
    decide

/-! ### Supporting lemmas for the invariant-preservation proof -/

namespace wwise

theorem sumLP_nil : sumLP [] = 0 := rfl

theorem sumLP_cons (w : Wem) (ws : List Wem) :
    sumLP (w :: ws) = ((w.Descriptor.Length : Int) + w.PaddingSize) + sumLP ws := by
  simp [sumLP]

theorem sumLP_set :
    ∀ (ws : List Wem) (i : Nat) (w w' : Wem), ws[i]? = some w →
      sumLP (ws.set i w') =
        sumLP ws - ((w.Descriptor.Length : Int) + w.PaddingSize) +
          ((w'.Descriptor.Length : Int) + w'.PaddingSize) := by
  intro ws
  induction ws with
  | nil => intro i w w' h; simp at h
  | cons a as ih =>
    intro i w w' h
    cases i with
    | zero =>
      simp only [List.getElem?_cons_zero, Option.some_inj] at h
      subst h
      simp only [List.set_cons_zero, sumLP_cons]
      ring
    | succ j =>
      simp only [List.getElem?_cons_succ] at h
      simp only [List.set_cons_succ, sumLP_cons, ih j w w' h]
      ring

theorem sumLP_shiftLoopF (next : Option Int) (s : Int) :
    ∀ (f : Nat) (ws : List Wem) (wi : Nat),
      sumLP (shiftLoopF f ws wi next s) = sumLP ws := by
  intro f
  induction f with
  | zero => intro ws wi; rfl
  | succ f ih =>
    intro ws wi
    rw [shiftLoopF]
    split
    · rename_i hlt
      split
      · rw [sumLP_set ws wi (ws.get ⟨wi, hlt⟩) _ (List.getElem?_eq_getElem hlt)]
        simp
      · rw [ih, sumLP_set ws wi (ws.get ⟨wi, hlt⟩) _ (List.getElem?_eq_getElem hlt)]
        simp
    · rfl

theorem sumLP_shiftLoop (ws : List Wem) (wi : Nat) (next : Option Int) (s : Int) :
    sumLP (shiftLoop ws wi next s) = sumLP ws :=
  sumLP_shiftLoopF next s _ ws wi

theorem reqBound_nil : reqBound [] = 0 := rfl

theorem reqBound_cons (r : ReplacementWem) (rest : List ReplacementWem) :
    reqBound (r :: rest) = (r.Length + 16) + reqBound rest := by
  simp [reqBound]

theorem reqBound_nonneg (rs : List ReplacementWem)
    (h : ∀ r ∈ rs, 0 ≤ r.Length) : 0 ≤ reqBound rs := by
  refine List.sum_nonneg ?_
  intro x hx
  obtain ⟨r, hr, hrx⟩ := List.mem_map.mp hx
  have := h r hr
  omega

theorem u32_small (x : Int) (h0 : 0 ≤ x) (hlt : x < 2 ^ 32) : u32 x = x.toNat := by
  unfold u32
  have hmod : x.emod (2 ^ 32) = x := Int.emod_eq_of_lt h0 (by exact_mod_cast hlt)
  rw [hmod]

theorem u32_small_cast (x : Int) (h0 : 0 ≤ x) (hlt : x < 2 ^ 32) :
    ((u32 x : Nat) : Int) = x := by
  rw [u32_small x h0 hlt]
  exact Int.toNat_of_nonneg h0

end wwise

namespace wwise

set_option maxHeartbeats 1000000

theorem replaceLoop_invariant :
    ∀ (rs : List ReplacementWem) (ws : List Wem) (S H0 : Int),
      List.Pairwise (fun a b : ReplacementWem => a.WemIndex < b.WemIndex) rs →
      (∀ r ∈ rs, 0 ≤ r.WemIndex ∧ r.WemIndex.toNat < ws.length ∧ 0 ≤ r.Length) →
      0 ≤ S → S % 16 = 0 →
      (∀ i w w', ws[i]? = some w → ws[i + 1]? = some w' →
        (i + 1 ≤ headIdx rs ws.length ∨ headIdx rs ws.length + 1 ≤ i) →
        wemEnd w = (w'.Descriptor.Offset : Int)) →
      (∀ w w', ws[headIdx rs ws.length]? = some w →
        ws[headIdx rs ws.length + 1]? = some w' →
        wemEnd w = (w'.Descriptor.Offset : Int) + S) →
      (∀ i w, ws[i]? = some w → headIdx rs ws.length ≤ i → minimalPadding w) →
      (∀ w ∈ ws, w.Descriptor.Offset % 16 = 0) →
      sumLP ws = H0 + S →
      (∀ i w, ws[i]? = some w → headIdx rs ws.length < i →
        (w.Descriptor.Offset : Int) + S + reqBound rs < 2 ^ 32) →
      0 ≤ H0 → H0 + S + reqBound rs < 2 ^ 32 →
      ∃ ws' S',
        replaceLoop ws S rs = .ok (ws', S') ∧
        ws'.length = ws.length ∧
        S ≤ S' ∧ S' % 16 = 0 ∧ S' ≤ S + reqBound rs ∧
        (∀ w ∈ ws', w.Descriptor.Offset % 16 = 0) ∧
        (∀ i w w', ws'[i]? = some w → ws'[i + 1]? = some w' →
          wemEnd w = (w'.Descriptor.Offset : Int)) ∧
        sumLP ws' = H0 + S' := by
  intro rs
  induction rs with
  | nil =>
    intro ws S H0 hsort hr hS0 hS16 hc1 hc2 hwf hoff16 hsum hbound hH0 hhdrB
    refine ⟨ws, S, rfl, rfl, le_rfl, hS16, by rw [reqBound_nil]; omega, hoff16, ?_, hsum⟩
    intro i w w' hw hw'
    refine hc1 i w w' hw hw' (Or.inl ?_)
    have := (List.getElem?_eq_some.mp hw').1
    simp only [headIdx]
    omega
  | cons r rest ih =>
    intro ws S H0 hsort hr hS0 hS16 hc1 hc2 hwf hoff16 hsum hbound hH0 hhdrB
    -- basic facts about the head request
    obtain ⟨hr0, hrlt, hrlen⟩ := hr r (List.mem_cons_self r rest)
    have hsortc := List.pairwise_cons.mp hsort
    set n := ws.length with hn
    set k := r.WemIndex.toNat with hk
    have hkn : k < n := hrlt
    have hhead : headIdx (r :: rest) n = k := rfl
    have hwk : ws[k]? = some (ws.get ⟨k, hkn⟩) := List.getElem?_eq_getElem hkn
    set wem := ws.get ⟨k, hkn⟩ with hwem
    -- the processed wem satisfies the minimal-padding hypothesis
    have hpadk : minimalPadding wem := hwf k wem hwk (by omega)
    obtain ⟨hp0, hp16, hpal⟩ := hpadk
    -- reqBound facts
    have hrB : reqBound (r :: rest) = (r.Length + 16) + reqBound rest :=
      reqBound_cons r rest
    have hrestB : 0 ≤ reqBound rest :=
      reqBound_nonneg rest (fun r' hr' => (hr r' (List.mem_cons_of_mem r hr')).2.2)
    -- the per-step surplus delta
    set D := growDelta wem r with hD
    have hDfacts : 0 ≤ D ∧ D % 16 = 0 ∧ D ≤ r.Length + 16 := by
      by_cases hg : (wem.Descriptor.Length : Int) < r.Length
      · have hDval : D = (r.Length + (16 - ((wem.Descriptor.Offset : Int) + r.Length).tmod 16)) -
            ((wem.Descriptor.Length : Int) + wem.PaddingSize) := by
          rw [hD, growDelta, if_pos hg]
        have htm : ((wem.Descriptor.Offset : Int) + r.Length).tmod 16 =
            ((wem.Descriptor.Offset : Int) + r.Length) % 16 :=
          Int.tmod_eq_emod (by positivity) (by norm_num)
        rw [htm] at hDval
        unfold wemEnd at hpal
        omega
      · have hDval : D = 0 := by rw [hD, growDelta, if_neg hg]
        omega
    obtain ⟨hD0, hD16, hDle⟩ := hDfacts
    set S' := S + D with hS'
    have hS'0 : 0 ≤ S' := by omega
    have hS'16 : S' % 16 = 0 := by omega
    have hS'le : S' ≤ S + reqBound (r :: rest) := by omega
    have hS'32 : S' < 2 ^ 32 := by omega
    -- the next pending index and the stop point of the shifting loop
    set k' := headIdx rest n with hk'
    have hkk' : k < k' := by
      cases hrest : rest with
      | nil => rw [hk', hrest]; exact hkn
      | cons r2 rest' =>
        have hlt2 := hsortc.1 r2 (by rw [hrest]; exact List.mem_cons_self r2 rest')
        have h02 := (hr r2 (by rw [hrest]; exact List.mem_cons_of_mem r (List.mem_cons_self r2 rest'))).1
        rw [hk', hrest]
        simp only [headIdx]
        omega
    have hk'n : k' ≤ n := by
      cases hrest : rest with
      | nil => rw [hk', hrest]; exact le_rfl
      | cons r2 rest' =>
        have := (hr r2 (by rw [hrest]; exact List.mem_cons_of_mem r (List.mem_cons_self r2 rest'))).2.1
        rw [hk', hrest]
        simp only [headIdx]
        omega
    -- the updated wem list before shifting
    set wR := replacedWem wem r with hwR
    set ws1 := ws.set k wR with hws1
    have hws1len : ws1.length = n := by rw [hws1, List.length_set]
    have hws1get : ∀ i, ws1[i]? = if i = k then some wR else ws[i]? := by
      intro i
      by_cases hik : i = k
      · subst hik
        rw [hws1, if_pos rfl, List.getElem?_set_self hkn]
      · rw [hws1, if_neg hik, List.getElem?_set_ne (by omega)]
    -- the replaced wem's fields
    have hlenR : ((wR.Descriptor.Length : Nat) : Int) = r.Length := by
      rw [hwR]
      simp only [replacedWem]
      exact u32_small_cast r.Length hrlen (by omega)
    have hoffR : wR.Descriptor.Offset = wem.Descriptor.Offset := by
      rw [hwR]; simp only [replacedWem]
    have hlpR : (wR.Descriptor.Length : Int) + wR.PaddingSize =
        ((wem.Descriptor.Length : Int) + wem.PaddingSize) + D := by
      rw [hwR, hD]
      simp only [replacedWem, growDelta]
      by_cases hg : (wem.Descriptor.Length : Int) < r.Length
      · rw [if_pos hg, if_pos hg]
        have := u32_small_cast r.Length hrlen (by omega)
        rw [this]
        ring
      · rw [if_neg hg, if_neg hg]
        have := u32_small_cast r.Length hrlen (by omega)
        rw [this]
        ring
    have hendR : wemEnd wR = wemEnd wem + D := by
      unfold wemEnd
      rw [hoffR]
      have := hlpR
      omega
    -- the shifted region and the state after the shifting loop
    set nxt := rest.head?.map ReplacementWem.WemIndex with hnxt
    set stop := if rest = [] then n - 1 else k' with hstop
    have hk'lt : rest ≠ [] → k' < n := by
      intro hne
      cases hrest : rest with
      | nil => exact absurd hrest hne
      | cons r2 rest' =>
        have := (hr r2 (by rw [hrest]; exact List.mem_cons_of_mem r (List.mem_cons_self r2 rest'))).2.1
        rw [hk', hrest]
        simp only [headIdx]
        omega
    set ws2 := (replaceBody ws S r k wem nxt).1 with hws2
    have hws2eq : ws2 = if S' > 0 then shiftLoop ws1 (k + 1) nxt S' else ws1 := by
      rw [hws2, replaceBody_spec]
    have hws2len : ws2.length = n := by
      rw [hws2, replaceBody_length]
    have hchar : ∀ i, ws2[i]? =
        if S' > 0 ∧ k + 1 ≤ i ∧ i ≤ stop then (ws1[i]?).map (shiftWem S')
        else ws1[i]? := by
      intro i
      rw [hws2eq]
      by_cases hSpos : S' > 0
      · rw [if_pos hSpos]
        cases hrest : rest with
        | nil =>
          have hnexteq : nxt = none := by rw [hnxt, hrest]; rfl
          have hstopeq : stop = n - 1 := by rw [hstop, if_pos hrest]
          rw [hnexteq, shiftLoop_getElem_none]
          by_cases hki : k + 1 ≤ i
          · by_cases hin : i ≤ n - 1
            · rw [if_pos hki, if_pos ⟨hSpos, hki, by omega⟩]
            · rw [if_pos hki, if_neg (by rw [hstopeq]; omega)]
              rw [List.getElem?_eq_none (by omega)]
              rfl
          · rw [if_neg hki, if_neg (by omega)]
        | cons r2 rest' =>
          have hne : rest ≠ [] := by rw [hrest]; simp
          have hk'val : k' = r2.WemIndex.toNat := by
            rw [hk', hrest]
            rfl
          have h02 : 0 ≤ r2.WemIndex :=
            (hr r2 (by rw [hrest]; exact List.mem_cons_of_mem r (List.mem_cons_self r2 rest'))).1
          have hnexteq : nxt = some ((k' : Nat) : Int) := by
            rw [hnxt, hrest]
            simp only [List.head?, Option.map]
            rw [hk'val, Int.toNat_of_nonneg h02]
          have hstopeq : stop = k' := by rw [hstop, if_neg hne]
          rw [hnexteq, shiftLoop_getElem_stop ws1 (k + 1) S' k' (by omega)
            (by rw [hws1len]; exact hk'lt hne)]
          by_cases hcnd : k + 1 ≤ i ∧ i ≤ k'
          · rw [if_pos hcnd, if_pos ⟨hSpos, hcnd.1, by rw [hstopeq]; exact hcnd.2⟩]
          · rw [if_neg hcnd, if_neg (by rw [hstopeq]; intro hcon; exact hcnd ⟨hcon.2.1, hcon.2.2⟩)]
      · rw [if_neg hSpos, if_neg (by intro hcon; exact hSpos hcon.1)]
    -- the shifted offsets are exact (no uint32 wrap) for indices past k
    have hoffb : ∀ i w, ws[i]? = some w → k < i →
        (w.Descriptor.Offset : Int) + S' < 2 ^ 32 := by
      intro i w hw hi
      have := hbound i w hw (by rw [hhead]; omega)
      rw [hrB] at this
      omega
    have hshoff : ∀ (w : Wem), (w.Descriptor.Offset : Int) + S' < 2 ^ 32 →
        (shiftWem S' w).Descriptor.Offset = w.Descriptor.Offset + S'.toNat := by
      intro w hb
      simp only [shiftWem]
      rw [u32_small S' hS'0 hS'32]
      apply Nat.mod_eq_of_lt
      omega
    have hshoffInt : ∀ (w : Wem), (w.Descriptor.Offset : Int) + S' < 2 ^ 32 →
        ((shiftWem S' w).Descriptor.Offset : Int) = (w.Descriptor.Offset : Int) + S' := by
      intro w hb
      rw [hshoff w hb]
      push_cast
      omega
    have hshend : ∀ (w : Wem), (w.Descriptor.Offset : Int) + S' < 2 ^ 32 →
        wemEnd (shiftWem S' w) = wemEnd w + S' := by
      intro w hb
      unfold wemEnd
      rw [hshoffInt w hb]
      simp only [shiftWem]
      ring
    have hshlp : ∀ (w : Wem),
        ((shiftWem S' w).Descriptor.Length : Int) + (shiftWem S' w).PaddingSize =
        (w.Descriptor.Length : Int) + w.PaddingSize := by
      intro w
      simp only [shiftWem]
    -- classification of the elements of the post-step list
    have hclass : ∀ i w, ws2[i]? = some w → i < n ∧
        ((i = k ∧ w = wR) ∨
         (i ≠ k ∧ ∃ v, ws[i]? = some v ∧
           ((S' > 0 ∧ k + 1 ≤ i ∧ i ≤ stop ∧ w = shiftWem S' v) ∨
            (¬(S' > 0 ∧ k + 1 ≤ i ∧ i ≤ stop) ∧ w = v)))) := by
      intro i w hw
      have hi : i < n := by
        have := (List.getElem?_eq_some.mp hw).1
        omega
      refine ⟨hi, ?_⟩
      rw [hchar i, hws1get i] at hw
      by_cases hik : i = k
      · subst hik
        rw [if_neg (by omega), if_pos rfl] at hw
        exact Or.inl ⟨rfl, (Option.some_inj.mp hw).symm⟩
      · rw [if_neg hik] at hw
        by_cases hcnd : S' > 0 ∧ k + 1 ≤ i ∧ i ≤ stop
        · rw [if_pos hcnd] at hw
          obtain ⟨v, hv, hvw⟩ := Option.map_eq_some'.mp hw
          exact Or.inr ⟨hik, v, hv, Or.inl ⟨hcnd.1, hcnd.2.1, hcnd.2.2, hvw.symm⟩⟩
        · rw [if_neg hcnd] at hw
          exact Or.inr ⟨hik, ws.get ⟨i, hi⟩,
            List.getElem?_eq_getElem hi,
            Or.inr ⟨hcnd, by
              rw [List.getElem?_eq_getElem hi] at hw
              exact (Option.some_inj.mp hw).symm⟩⟩
    -- the recursion hypotheses for the tail call
    have hhead2 : headIdx rest ws2.length = k' := by
      rw [hws2len, ← hk']
    have hr2 : ∀ r' ∈ rest, 0 ≤ r'.WemIndex ∧ r'.WemIndex.toNat < ws2.length ∧
        0 ≤ r'.Length := by
      intro r' hr'
      have := hr r' (List.mem_cons_of_mem r hr')
      rw [hws2len]
      exact this
    have hwf2 : ∀ i w, ws2[i]? = some w → headIdx rest ws2.length ≤ i →
        minimalPadding w := by
      intro i w hw hki
      rw [hhead2] at hki
      obtain ⟨hi, hcases⟩ := hclass i w hw
      rcases hcases with ⟨hik, hwR⟩ | ⟨hik, v, hv, hvc⟩
      · omega
      · have hold : minimalPadding v := hwf i v hv (by rw [hhead]; omega)
        rcases hvc with ⟨hSpos, hk1, hstp, hsh⟩ | ⟨hnc, hvw⟩
        · subst hsh
          obtain ⟨hv0, hv16, hval⟩ := hold
          refine ⟨by simp only [shiftWem]; exact hv0,
            by simp only [shiftWem]; exact hv16, ?_⟩
          rw [hshend v (hoffb i v hv (by omega))]
          omega
        · subst hvw
          exact hold
    have hoffm : ∀ w ∈ ws2, w.Descriptor.Offset % 16 = 0 := by
      intro w hw
      obtain ⟨i, hwi⟩ := List.mem_iff_getElem?.mp hw
      obtain ⟨hi, hcases⟩ := hclass i w hwi
      rcases hcases with ⟨hik, hwR⟩ | ⟨hik, v, hv, hvc⟩
      · subst hwR
        rw [hoffR]
        exact hoff16 wem (by rw [hwem]; exact List.get_mem ws k hkn)
      · have hvmem : v ∈ ws := List.mem_iff_getElem?.mpr ⟨i, hv⟩
        have hold := hoff16 v hvmem
        rcases hvc with ⟨hSpos, hk1, hstp, hsh⟩ | ⟨hnc, hvw⟩
        · subst hsh
          rw [hshoff v (hoffb i v hv (by omega))]
          omega
        · subst hvw
          exact hold
    have hsum2 : sumLP ws2 = H0 + S' := by
      rw [hws2eq]
      have hs1 : sumLP ws1 = H0 + S' := by
        rw [hws1, sumLP_set ws k wem wR hwk, hsum, hlpR]
        ring
      by_cases hSpos : S' > 0
      · rw [if_pos hSpos, sumLP_shiftLoop, hs1]
      · rw [if_neg hSpos, hs1]
    have hbound2 : ∀ i w, ws2[i]? = some w → headIdx rest ws2.length < i →
        (w.Descriptor.Offset : Int) + S' + reqBound rest < 2 ^ 32 := by
      intro i w hw hki
      rw [hhead2] at hki
      obtain ⟨hi, hcases⟩ := hclass i w hw
      rcases hcases with ⟨hik, hwR⟩ | ⟨hik, v, hv, hvc⟩
      · omega
      · have hold := hbound i v hv (by rw [hhead]; omega)
        rw [hrB] at hold
        rcases hvc with ⟨hSpos, hk1, hstp, hsh⟩ | ⟨hnc, hvw⟩
        · exfalso
          have : stop = k' := by
            rw [hstop]
            cases hrest : rest with
            | nil =>
              exfalso
              rw [hk', hrest] at hki
              simp only [headIdx] at hki
              omega
            | cons r2 rest' => rw [if_neg (by simp [hrest])]
          omega
        · subst hvw
          omega
    have hhdrB2 : H0 + S' + reqBound rest < 2 ^ 32 := by
      rw [hrB] at hhdrB
      omega
    -- the boundary pair at the next pending index
    have hc2x : ∀ w w', ws2[headIdx rest ws2.length]? = some w →
        ws2[headIdx rest ws2.length + 1]? = some w' →
        wemEnd w = (w'.Descriptor.Offset : Int) + S' := by
      intro w w' hw hw'
      rw [hhead2] at hw hw'
      obtain ⟨hik'n, hcases'⟩ := hclass (k' + 1) w' hw'
      have hne : rest ≠ [] := by
        intro hrest
        rw [hk', hrest] at hik'n
        simp only [headIdx] at hik'n
        omega
      have hstopeq : stop = k' := by rw [hstop, if_neg hne]
      obtain ⟨hik'', hcases⟩ := hclass k' w hw
      have hvw' : ∃ v', ws[k' + 1]? = some v' ∧ w' = v' := by
        rcases hcases' with ⟨hik, _⟩ | ⟨hik, v', hv', hvc⟩
        · omega
        · rcases hvc with ⟨_, _, hstp, _⟩ | ⟨_, hvw⟩
          · omega
          · exact ⟨v', hv', hvw⟩
      obtain ⟨v', hv', hvw'⟩ := hvw'
      rcases hcases with ⟨hik, _⟩ | ⟨hik, v, hv, hvc⟩
      · omega
      · have hold : wemEnd v = (v'.Descriptor.Offset : Int) :=
          hc1 k' v v' hv hv' (by rw [hhead]; right; omega)
        rcases hvc with ⟨hSpos, hk1, hstp, hsh⟩ | ⟨hnc, hvw⟩
        · subst hsh
          subst hvw'
          rw [hshend v (hoffb k' v hv (by omega)), hold]
        · have hS0' : ¬ S' > 0 := by
            intro hSp
            exact hnc ⟨hSp, by omega, by omega⟩
          have hSz : S' = 0 := by omega
          subst hvw
          subst hvw'
          rw [hold, hSz, add_zero]
    -- the exact chain for pairs on the proper side of the next pending index
    have hc1x : ∀ i w w', ws2[i]? = some w → ws2[i + 1]? = some w' →
        (i + 1 ≤ headIdx rest ws2.length ∨ headIdx rest ws2.length + 1 ≤ i) →
        wemEnd w = (w'.Descriptor.Offset : Int) := by
      intro i w w' hw hw' hcond
      rw [hhead2] at hcond
      obtain ⟨hi, hcw⟩ := hclass i w hw
      obtain ⟨hi1, hcw'⟩ := hclass (i + 1) w' hw'
      by_cases hik : i + 1 ≤ k
      · -- pairs entirely before the processed index
        have hworig : ∃ v, ws[i]? = some v ∧ w = v := by
          rcases hcw with ⟨he, _⟩ | ⟨hne, v, hv, hvc⟩
          · omega
          · rcases hvc with ⟨_, hk1, _, _⟩ | ⟨_, hvw⟩
            · omega
            · exact ⟨v, hv, hvw⟩
        obtain ⟨v, hv, hvw⟩ := hworig
        subst hvw
        by_cases hieqk : i + 1 = k
        · rcases hcw' with ⟨_, hwR'⟩ | ⟨hne', _⟩
          · subst hwR'
            rw [hoffR]
            refine hc1 i w wem hv ?_ (by rw [hhead]; left; omega)
            rw [hieqk]
            exact hwk
          · omega
        · rcases hcw' with ⟨he, _⟩ | ⟨hne', v', hv', hvc'⟩
          · omega
          · rcases hvc' with ⟨_, hk1, _, _⟩ | ⟨_, hvw'⟩
            · omega
            · subst hvw'
              exact hc1 i w w' hv hv' (by rw [hhead]; left; omega)
      · by_cases hieq : i = k
        · -- the pair (k, k+1)
          subst hieq
          have hwisR : w = wR := by
            rcases hcw with ⟨_, hwR⟩ | ⟨hne, _⟩
            · exact hwR
            · omega
          subst hwisR
          rcases hcw' with ⟨he, _⟩ | ⟨hne', v', hv', hvc'⟩
          · omega
          · have holdc2 : wemEnd wem = (v'.Descriptor.Offset : Int) + S := by
              refine hc2 wem v' ?_ ?_
              · rw [hhead]
                exact hwk
              · rw [hhead]
                exact hv'
            rcases hvc' with ⟨hSpos, _, _, hsh⟩ | ⟨hnc, hvw'⟩
            · subst hsh
              rw [hendR, holdc2, hshoffInt v' (hoffb (k + 1) v' hv' (by omega))]
              omega
            · have hstopge : k + 1 ≤ stop := by
                rw [hstop]
                cases hrest : rest with
                | nil => rw [if_pos rfl]; omega
                | cons r2 rest' =>
                  rw [if_neg (by simp)]
                  have : k < k' := hkk'
                  omega
              have hS0' : ¬ S' > 0 := by
                intro hSp
                exact hnc ⟨hSp, by omega, hstopge⟩
              have hSz : S' = 0 := by omega
              have hDz : D = 0 := by omega
              have hSzz : S = 0 := by omega
              subst hvw'
              rw [hendR, holdc2]
              omega
        · -- pairs past the processed index
          have hkle : k + 1 ≤ i := by omega
          rcases hcw with ⟨he, _⟩ | ⟨hne, v, hv, hvc⟩
          · omega
          rcases hcw' with ⟨he', _⟩ | ⟨hne', v', hv', hvc'⟩
          · omega
          have hold : wemEnd v = (v'.Descriptor.Offset : Int) :=
            hc1 i v v' hv hv' (by rw [hhead]; right; omega)
          rcases hcond with hcondl | hcondr
          · have hstople : i + 1 ≤ stop := by
              rw [hstop]
              cases hrest : rest with
              | nil => rw [if_pos rfl]; omega
              | cons r2 rest' =>
                rw [if_neg (by simp)]
                omega
            by_cases hSpos : S' > 0
            · have hshi : w = shiftWem S' v := by
                rcases hvc with ⟨_, _, _, h⟩ | ⟨hnc, _⟩
                · exact h
                · exact absurd ⟨hSpos, by omega, by omega⟩ hnc
              have hshi' : w' = shiftWem S' v' := by
                rcases hvc' with ⟨_, _, _, h⟩ | ⟨hnc, _⟩
                · exact h
                · exact absurd ⟨hSpos, by omega, hstople⟩ hnc
              subst hshi
              subst hshi'
              rw [hshend v (hoffb i v hv (by omega)), hold,
                hshoffInt v' (hoffb (i + 1) v' hv' (by omega))]
            · have hvw : w = v := by
                rcases hvc with ⟨hSp, _, _, _⟩ | ⟨_, h⟩
                · exact absurd hSp hSpos
                · exact h
              have hvw' : w' = v' := by
                rcases hvc' with ⟨hSp, _, _, _⟩ | ⟨_, h⟩
                · exact absurd hSp hSpos
                · exact h
              subst hvw
              subst hvw'
              exact hold
          · have hne2 : rest ≠ [] := by
              intro hrest
              rw [hk', hrest] at hcondr
              simp only [headIdx] at hcondr
              omega
            have hstopeq : stop = k' := by rw [hstop, if_neg hne2]
            have hvw : w = v := by
              rcases hvc with ⟨_, _, hstp, _⟩ | ⟨_, h⟩
              · omega
              · exact h
            have hvw' : w' = v' := by
              rcases hvc' with ⟨_, _, hstp, _⟩ | ⟨_, h⟩
              · omega
              · exact h
            subst hvw
            subst hvw'
            exact hold
    -- apply the induction hypothesis and reassemble
    obtain ⟨wsF, SF, hloop, hlenF, hleF, h16F, hleBF, hoffF, hchainF, hsumF⟩ :=
      ih ws2 S' H0 hsortc.2 hr2 hS'0 hS'16 hc1x hc2x hwf2 hoffm hsum2 hbound2 hH0 hhdrB2
    have hpair : replaceBody ws S r k wem nxt = (ws2, S') := by
      refine Prod.ext rfl ?_
      rw [replaceBody_spec]
    refine ⟨wsF, SF, ?_, ?_, ?_, h16F, ?_, hoffF, hchainF, hsumF⟩
    · rw [replaceLoop, dif_pos (⟨hr0, hrlt⟩ : 0 ≤ r.WemIndex ∧ r.WemIndex.toNat < ws.length)]
      show replaceLoop (replaceBody ws S r k wem nxt).1
        (replaceBody ws S r k wem nxt).2 rest = .ok (wsF, SF)
      rw [hpair]
      exact hloop
    · rw [hlenF, hws2len]
    · omega
    · rw [hrB]
      omega

theorem chainOK_iff_pairs (ws : List Wem) :
    chainOK ws ↔ ∀ i w w', ws[i]? = some w → ws[i + 1]? = some w' →
      wemEnd w = (w'.Descriptor.Offset : Int) := by
  rw [chainOK, List.chain'_iff_get]
  constructor
  · intro h i w w' hw hw'
    obtain ⟨hi, hwe⟩ := List.getElem?_eq_some.mp hw
    obtain ⟨hi1, hwe'⟩ := List.getElem?_eq_some.mp hw'
    have hh := h i (by omega)
    rw [List.get_eq_getElem, List.get_eq_getElem] at hh
    rw [hwe, hwe'] at hh
    exact hh
  · intro h i hi
    have h1 : i < ws.length := by omega
    have h2 : i + 1 < ws.length := by omega
    refine h i _ _ ?_ ?_
    · rw [List.get_eq_getElem]
      exact List.getElem?_eq_getElem h1
    · rw [List.get_eq_getElem]
      exact List.getElem?_eq_getElem h2

theorem sumLP_nonneg (ws : List Wem) (h : ∀ w ∈ ws, 0 ≤ w.PaddingSize) :
    0 ≤ sumLP ws := by
  refine List.sum_nonneg ?_
  intro x hx
  obtain ⟨w, hw, hwx⟩ := List.mem_map.mp hx
  have := h w hw
  have hL : (0 : Int) ≤ (w.Descriptor.Length : Int) := Int.ofNat_nonneg _
  omega

/-- The hypotheses of the invariant-preservation theorem transferred to
the sorted request list, followed by the master loop lemma. -/
theorem ReplaceWems_invariant (ws : List Wem) (rs : List ReplacementWem)
    (hdist : rs.Pairwise (fun a b => a.WemIndex ≠ b.WemIndex))
    (hinr : ∀ r ∈ rs, 0 ≤ r.WemIndex ∧ r.WemIndex.toNat < ws.length)
    (hlen : ∀ r ∈ rs, 0 ≤ r.Length)
    (hoff16 : ∀ w ∈ ws, w.Descriptor.Offset % 16 = 0)
    (hchain : chainOK ws)
    (hpad : ∀ w ∈ ws, minimalPadding w)
    (hboundw : ∀ w ∈ ws, (w.Descriptor.Offset : Int) + reqBound rs < 2 ^ 32)
    (hhdr : sumLP ws + reqBound rs < 2 ^ 32) :
    ∃ ws' S', ReplaceWems ws rs = .ok (ws', S') ∧
      ws'.length = ws.length ∧
      0 ≤ S' ∧ S' ≤ reqBound rs ∧
      (∀ w ∈ ws', w.Descriptor.Offset % 16 = 0) ∧
      chainOK ws' ∧
      sumLP ws' = sumLP ws + S' := by
  have hperm := List.perm_insertionSort byWemIndexLe rs
  have hsorted : List.Sorted byWemIndexLe (List.insertionSort byWemIndexLe rs) :=
    List.sorted_insertionSort byWemIndexLe rs
  have hne' : (List.insertionSort byWemIndexLe rs).Pairwise
      (fun a b => a.WemIndex ≠ b.WemIndex) :=
    (hperm.pairwise_iff (fun h => h.symm)).mpr hdist
  have hsortlt : (List.insertionSort byWemIndexLe rs).Pairwise
      (fun a b => a.WemIndex < b.WemIndex) := by
    have hand := List.Pairwise.and hsorted hne'
    exact hand.imp (fun hab => lt_of_le_of_ne hab.1 hab.2)
  have hreq : reqBound (List.insertionSort byWemIndexLe rs) = reqBound rs := by
    unfold reqBound
    exact (hperm.map (fun r => r.Length + 16)).sum_eq
  have hmem : ∀ r', r' ∈ List.insertionSort byWemIndexLe rs → r' ∈ rs :=
    fun r' h => hperm.mem_iff.mp h
  have hpairs := (chainOK_iff_pairs ws).mp hchain
  have hpadnn : ∀ w ∈ ws, 0 ≤ w.PaddingSize := fun w hw => (hpad w hw).1
  have hsumnn : 0 ≤ sumLP ws := sumLP_nonneg ws hpadnn
  obtain ⟨ws', S', hloop, hlen', hle1, h16, hleB, hoff', hchain', hsum'⟩ :=
    replaceLoop_invariant (List.insertionSort byWemIndexLe rs) ws 0 (sumLP ws)
      hsortlt
      (fun r' h => ⟨(hinr r' (hmem r' h)).1, (hinr r' (hmem r' h)).2,
        hlen r' (hmem r' h)⟩)
      le_rfl (by decide)
      (fun i w w' hw hw' _ => hpairs i w w' hw hw')
      (fun w w' hw hw' => by rw [hpairs _ w w' hw hw', add_zero])
      (fun i w hw _ => hpad w (List.mem_iff_getElem?.mpr ⟨i, hw⟩))
      hoff16
      (by omega)
      (fun i w hw _ => by
        have := hboundw w (List.mem_iff_getElem?.mpr ⟨i, hw⟩)
        rw [hreq]
        omega)
      hsumnn
      (by rw [hreq]; omega)
  refine ⟨ws', S', hloop, hlen', by omega, ?_, hoff', ?_, ?_⟩
  · rw [hreq] at hleB
    omega
  · rw [chainOK_iff_pairs]
    exact hchain'
  · omega

end wwise

open wwise

/-- C2 (amended): if a SoundBank satisfies invariants (1)-(3) and,
additionally, every wem carries the minimal 16-byte-alignment padding
(`0 ≤ padding < 16` and offset+length+padding is a multiple of 16), then
for every replacement list with distinct, in-range indices and
non-negative lengths (with offsets, the header length and the total
possible growth all below `2^32`, so that no uint32 arithmetic wraps),
after `ReplaceWems` the invariants hold again: every offset is a
multiple of 16, adjacent wems tile the data region, and the DATA header
length equals the sum of lengths plus paddings.  Without the minimal
padding condition the claim is false (see the counterexample). -/
theorem C2_theorem (ds : bnk.DataSection) (rs : List ReplacementWem)
    (hdist : rs.Pairwise (fun a b => a.WemIndex ≠ b.WemIndex))
    (hinr : ∀ r ∈ rs, 0 ≤ r.WemIndex ∧ r.WemIndex.toNat < ds.Wems.length)
    (hlen : ∀ r ∈ rs, 0 ≤ r.Length)
    (hoff16 : ∀ w ∈ ds.Wems, w.Descriptor.Offset % 16 = 0)
    (hchain : chainOK ds.Wems)
    (hsum : (ds.HeaderLength : Int) = sumLP ds.Wems)
    (hpad : ∀ w ∈ ds.Wems, minimalPadding w)
    (hboundw : ∀ w ∈ ds.Wems, (w.Descriptor.Offset : Int) + reqBound rs < 2 ^ 32)
    (hhdr : (ds.HeaderLength : Int) + reqBound rs < 2 ^ 32) :
    ∃ ds', ds.ReplaceWems rs = .ok ds' ∧
      ds'.Wems.length = ds.Wems.length ∧
      (∀ w ∈ ds'.Wems, w.Descriptor.Offset % 16 = 0) ∧
      chainOK ds'.Wems ∧
      (ds'.HeaderLength : Int) = sumLP ds'.Wems := by
  obtain ⟨ws', S', hloop, hlen', hS0, hSB, hoff', hchain', hsum'⟩ :=
    ReplaceWems_invariant ds.Wems rs hdist hinr hlen hoff16 hchain hpad hboundw
      (by omega)
  have hS32 : S' < 2 ^ 32 := by
    have h0 : (0 : Int) ≤ (ds.HeaderLength : Int) := Int.ofNat_nonneg _
    omega
  refine ⟨{ HeaderLength := if S' > 0 then (ds.HeaderLength + u32 S') % 2 ^ 32
              else ds.HeaderLength,
            Wems := ws' }, ?_, ?_, ?_, ?_, ?_⟩
  · unfold bnk.DataSection.ReplaceWems
    rw [hloop]
  · exact hlen'
  · exact hoff'
  · exact hchain'
  · simp only []
    by_cases hpos : S' > 0
    · rw [if_pos hpos]
      rw [u32_small S' hS0 hS32]
      have hlt : ds.HeaderLength + S'.toNat < 2 ^ 32 := by omega
      rw [Nat.mod_eq_of_lt hlt]
      push_cast
      omega
    · rw [if_neg hpos]
      have : S' = 0 := by omega
      omega

/-- C2 witness: a concrete two-wem SoundBank with minimal padding and a
single growth request keeps all three invariants. -/
theorem C2_witness :
    ∃ ds', bnk.DataSection.ReplaceWems ⟨32, [⟨⟨1, 0, 4⟩, 12⟩, ⟨⟨2, 16, 16⟩, 0⟩]⟩
        [⟨(0 : Int), (6 : Int)⟩] = .ok ds' ∧
      ds'.Wems.length = ([⟨⟨1, 0, 4⟩, 12⟩, ⟨⟨2, 16, 16⟩, 0⟩] : List Wem).length ∧
      (∀ w ∈ ds'.Wems, w.Descriptor.Offset % 16 = 0) ∧
      chainOK ds'.Wems ∧
      (ds'.HeaderLength : Int) = sumLP ds'.Wems :=
  C2_theorem ⟨32, [⟨⟨1, 0, 4⟩, 12⟩, ⟨⟨2, 16, 16⟩, 0⟩]⟩ [⟨0, 6⟩]
    (by decide) (by decide) (by decide) (by decide)
    (by simp only [chainOK, List.chain'_cons, List.chain'_singleton, wemEnd, and_true]
        decide)
    (by decide) (by decide) (by decide) (by decide)

/-- C9 (amended): provided every wem carries the minimal
16-byte-alignment padding (padding in [0, 16) with offset+length+padding
a multiple of 16) and no uint32 arithmetic wraps, the surplus computed
by the replacement engine is never negative: a shrink leaves it
unchanged and a growth can only increase it, so the value returned by
`ReplaceWems` is at least 0.  Without the minimal-padding condition the
returned surplus can be negative (see the counterexample). -/
theorem C9_theorem (ws : List Wem) (rs : List ReplacementWem)
    (hdist : rs.Pairwise (fun a b => a.WemIndex ≠ b.WemIndex))
    (hinr : ∀ r ∈ rs, 0 ≤ r.WemIndex ∧ r.WemIndex.toNat < ws.length)
    (hlen : ∀ r ∈ rs, 0 ≤ r.Length)
    (hoff16 : ∀ w ∈ ws, w.Descriptor.Offset % 16 = 0)
    (hchain : chainOK ws)
    (hpad : ∀ w ∈ ws, minimalPadding w)
    (hboundw : ∀ w ∈ ws, (w.Descriptor.Offset : Int) + reqBound rs < 2 ^ 32)
    (hhdr : sumLP ws + reqBound rs < 2 ^ 32) :
    ∃ ws' S', ReplaceWems ws rs = .ok (ws', S') ∧ 0 ≤ S' := by
  obtain ⟨ws', S', hloop, _, hS0, _, _, _, _⟩ :=
    ReplaceWems_invariant ws rs hdist hinr hlen hoff16 hchain hpad hboundw hhdr
  exact ⟨ws', S', hloop, hS0⟩

/-- C9 witness: a concrete minimally-padded container with one shrink
request and one growth request returns a non-negative surplus. -/
theorem C9_witness :
    ∃ ws' S', ReplaceWems [⟨⟨1, 0, 4⟩, 12⟩, ⟨⟨2, 16, 16⟩, 0⟩]
        [⟨(0 : Int), (2 : Int)⟩, ⟨(1 : Int), (17 : Int)⟩] = .ok (ws', S') ∧ 0 ≤ S' :=
  C9_theorem [⟨⟨1, 0, 4⟩, 12⟩, ⟨⟨2, 16, 16⟩, 0⟩] [⟨0, 2⟩, ⟨1, 17⟩]
    (by decide) (by decide) (by decide) (by decide)
    (by simp only [chainOK, List.chain'_cons, List.chain'_singleton, wemEnd, and_true]
        decide)
    (by decide) (by decide) (by decide)


/-! ### Claims C5 and C8: the DIDX parser and the NewFile wem check -/

namespace bnk

theorem alistLookup_isSome_iff {α : Type} :
    ∀ (l : List (Nat × α)) (k : Nat),
      (alistLookup l k).isSome ↔ k ∈ l.map Prod.fst := by
  intro l
  induction l with
  | nil => intro k; simp [alistLookup]
  | cons p rest ih =>
    intro k
    rw [alistLookup]
    by_cases hk : p.1 = k
    · rw [if_pos hk]
      simp [hk]
    · rw [if_neg hk]
      simp only [List.map_cons, List.mem_cons, ih]
      constructor
      · intro h
        exact Or.inr h
      · intro h
        rcases h with h | h
        · exact absurd h.symm hk
        · exact h

theorem NewDataIndexSectionLoop_crash :
    ∀ (n : Nat) (stream : List WemDescriptor) (sec : DataIndexSection),
      n ≤ stream.length →
      (sec.DescriptorMap.map Prod.fst).Nodup →
      ¬ ((sec.DescriptorMap.map Prod.fst) ++
          (stream.take n).map wwise.WemDescriptor.WemId).Nodup →
      NewDataIndexSectionLoop n stream sec = .crash := by
  intro n
  induction n with
  | zero =>
    intro stream sec hlen hnd hdup
    exfalso
    apply hdup
    simpa using hnd
  | succ n ih =>
    intro stream sec hlen hnd hdup
    cases stream with
    | nil => simp at hlen
    | cons d rest =>
      rw [NewDataIndexSectionLoop]
      by_cases hmem : (alistLookup sec.DescriptorMap d.WemId).isSome
      · rw [if_pos hmem]
      · rw [if_neg hmem]
        have hnotin : d.WemId ∉ sec.DescriptorMap.map Prod.fst := by
          intro hc
          exact hmem ((alistLookup_isSome_iff sec.DescriptorMap d.WemId).mpr hc)
        refine ih rest _ (by simpa using hlen) ?_ ?_
        · simp only [List.map_append, List.map_cons, List.map_nil]
          rw [List.nodup_append]
          refine ⟨hnd, List.nodup_singleton _, ?_⟩
          intro a ha hb
          simp only [List.mem_singleton] at hb
          subst hb
          exact hnotin ha
        · intro hc
          apply hdup
          simp only [List.map_append, List.map_cons, List.map_nil] at hc ⊢
          rw [List.append_assoc] at hc
          simpa using hc

end bnk

open wwise

/-- C5 counterexample: a stream whose DIDX section repeats wem id 7.
`NewFile` ends in a runtime panic (`panic("7 is an illegal repeated wem
ID in the DIDX")`, bnk/object.go line 713), not in an error result:
`crash` and `err` are distinct outcomes, so no format error is
surfaced to the caller. -/
theorem C5_counterexample :
    bnk.NewFile [.didx 24 [⟨7, 0, 4⟩, ⟨7, 16, 4⟩]] = .crash ∧
    (bnk.ParseResult.crash : bnk.ParseResult bnk.File) ≠ .err := by
  refine ⟨by rfl, by decide⟩

/-- C5 (amended): for every DIDX section whose first `length / 12`
descriptor records contain a repeated wem id, the parser panics (an
explicit Go `panic`, i.e. a crash) instead of returning an error
result; construction never completes, so no container (and no section)
is returned. -/
theorem C5_theorem (hdrLength : Nat) (stream : List WemDescriptor)
    (hlen : hdrLength / 12 ≤ stream.length)
    (hdup : ¬ ((stream.take (hdrLength / 12)).map
      wwise.WemDescriptor.WemId).Nodup) :
    bnk.NewDataIndexSection hdrLength stream = .crash := by
  unfold bnk.NewDataIndexSection
  refine bnk.NewDataIndexSectionLoop_crash (hdrLength / 12) stream _ hlen ?_ ?_
  · simp
  · simpa using hdup

/-- C5 witness: a 24-byte DIDX (two records) with the same id twice
panics. -/
theorem C5_witness :
    bnk.NewDataIndexSection 24 [⟨7, 0, 4⟩, ⟨7, 16, 4⟩] = .crash :=
  C5_theorem 24 [⟨7, 0, 4⟩, ⟨7, 16, 4⟩] (by decide) (by decide)

namespace bnk

theorem NewFileLoop_noData :
    ∀ (evts : List SectionData) (acc : File),
      (∀ e ∈ evts, e.isData = false) → acc.DataSection = none →
      NewFileLoop evts acc = .err ∨ NewFileLoop evts acc = .crash ∨
        ∃ f, NewFileLoop evts acc = .ok f ∧ f.DataSection = none := by
  intro evts
  induction evts with
  | nil =>
    intro acc _ hacc
    exact Or.inr (Or.inr ⟨acc, rfl, hacc⟩)
  | cons e rest ih =>
    intro acc hnd hacc
    have hrest : ∀ e' ∈ rest, e'.isData = false :=
      fun e' h => hnd e' (List.mem_cons_of_mem e h)
    cases e with
    | bkhd len =>
      rw [NewFileLoop]
      exact ih _ hrest hacc
    | didx len descs =>
      rw [NewFileLoop]
      cases hsec : NewDataIndexSection len descs with
      | ok sec => exact ih _ hrest hacc
      | err => exact Or.inl rfl
      | crash => exact Or.inr (Or.inl rfl)
    | data len =>
      exfalso
      have := hnd (.data len) (List.mem_cons_self _ _)
      simp [SectionData.isData] at this
    | hirc len =>
      rw [NewFileLoop]
      exact ih _ hrest hacc
    | unknown len =>
      rw [NewFileLoop]
      exact ih _ hrest hacc

theorem NewFileLoop_zeroWems :
    ∀ (evts : List SectionData) (acc : File),
      (∀ e ∈ evts, ∀ len descs, e = .didx len descs → len / 12 = 0) →
      (acc.IndexSection = none ∨
        ∃ idx, acc.IndexSection = some idx ∧ idx.WemIds = []) →
      (acc.DataSection = none ∨
        ∃ ds, acc.DataSection = some ds ∧ ds.Wems = []) →
      NewFileLoop evts acc = .err ∨ NewFileLoop evts acc = .crash ∨
        ∃ f, NewFileLoop evts acc = .ok f ∧
          (f.DataSection = none ∨
            ∃ ds, f.DataSection = some ds ∧ ds.Wems = []) := by
  intro evts
  induction evts with
  | nil =>
    intro acc _ _ hdata
    exact Or.inr (Or.inr ⟨acc, rfl, hdata⟩)
  | cons e rest ih =>
    intro acc hz hidx hdata
    have hrest : ∀ e' ∈ rest, ∀ len descs, e' = .didx len descs → len / 12 = 0 :=
      fun e' h => hz e' (List.mem_cons_of_mem e h)
    cases e with
    | bkhd len =>
      rw [NewFileLoop]
      exact ih _ hrest hidx hdata
    | didx len descs =>
      have hzero : len / 12 = 0 :=
        hz (.didx len descs) (List.mem_cons_self _ _) len descs rfl
      have hsec : NewDataIndexSection len descs = .ok ⟨len, len / 12, [], []⟩ := by
        unfold NewDataIndexSection
        rw [hzero]
        rfl
      rw [NewFileLoop, hsec]
      refine ih _ hrest (Or.inr ⟨⟨len, len / 12, [], []⟩, rfl, rfl⟩) hdata
    | data len =>
      rw [NewFileLoop]
      rcases hidx with hnone | ⟨idx, hsome, hids⟩
      · rw [hnone]
        exact Or.inr (Or.inl rfl)
      · rw [hsome]
        refine ih _ hrest (Or.inr ⟨idx, rfl, hids⟩)
          (Or.inr ⟨⟨len, buildWems len idx.DescriptorMap idx.WemIds⟩, rfl, ?_⟩)
        rw [hids]
        rfl
    | hirc len =>
      rw [NewFileLoop]
      exact ih _ hrest hidx hdata
    | unknown len =>
      rw [NewFileLoop]
      exact ih _ hrest hidx hdata

end bnk

/-- C8 (confirmed): SoundBank load returns an error and no container
whenever the stream has no `DATA` section, or every `DIDX` section
declares zero wems (header length below 12, so the `DATA` section holds
no wems) — provided the parse does not already panic for an unrelated
reason; and a container is returned only when it has a `DATA` section
holding at least one wem. -/
theorem C8_theorem :
    (∀ evts : List bnk.SectionData, bnk.NewFile evts ≠ .crash →
      ((∀ e ∈ evts, e.isData = false) ∨
        (∀ e ∈ evts, ∀ len descs, e = .didx len descs → len / 12 = 0)) →
      bnk.NewFile evts = .err) ∧
    (∀ (evts : List bnk.SectionData) (f : bnk.File), bnk.NewFile evts = .ok f →
      ∃ ds, f.DataSection = some ds ∧ ds.Wems ≠ []) := by
  constructor
  · intro evts hnc hzero
    have hres : bnk.NewFileLoop evts ⟨none, none, none⟩ = .err ∨
        bnk.NewFileLoop evts ⟨none, none, none⟩ = .crash ∨
        ∃ f, bnk.NewFileLoop evts ⟨none, none, none⟩ = .ok f ∧
          (f.DataSection = none ∨
            ∃ ds, f.DataSection = some ds ∧ ds.Wems = []) := by
      rcases hzero with hnd | hz
      · rcases bnk.NewFileLoop_noData evts ⟨none, none, none⟩ hnd rfl with
          h | h | ⟨f, hf, hda⟩
        · exact Or.inl h
        · exact Or.inr (Or.inl h)
        · exact Or.inr (Or.inr ⟨f, hf, Or.inl hda⟩)
      · exact bnk.NewFileLoop_zeroWems evts ⟨none, none, none⟩ hz
          (Or.inl rfl) (Or.inl rfl)
    unfold bnk.NewFile
    rcases hres with h | h | ⟨f, hf, hda⟩
    · rw [h]
    · exfalso
      apply hnc
      unfold bnk.NewFile
      rw [h]
    · rw [hf]
      simp only []
      rcases hda with hnone | ⟨ds, hsome, hwems⟩
      · rw [hnone]
      · rw [hsome]
        simp only []
        rw [if_pos (by rw [hwems]; rfl)]
  · intro evts f hok
    unfold bnk.NewFile at hok
    cases hloop : bnk.NewFileLoop evts ⟨none, none, none⟩ with
    | ok g =>
      rw [hloop] at hok
      simp only [] at hok
      cases hds : g.DataSection with
      | none =>
        rw [hds] at hok
        simp only [] at hok
        exact absurd hok (by simp)
      | some ds =>
        rw [hds] at hok
        simp only [] at hok
        by_cases hlen : ds.Wems.length = 0
        · rw [if_pos hlen] at hok
          exact absurd hok (by simp)
        · rw [if_neg hlen] at hok
          have hfg : g = f := by
            simpa using hok
          subst hfg
          exact ⟨ds, hds, by
            intro hnil
            exact hlen (by rw [hnil]; rfl)⟩
    | err =>
      rw [hloop] at hok
      exact absurd hok (by simp)
    | crash =>
      rw [hloop] at hok
      exact absurd hok (by simp)

/-- C8 witness: a stream with only a bank header yields the
no-wems error, and a stream with a one-wem DIDX followed by DATA yields
a container whose DATA section is non-empty. -/
theorem C8_witness :
    bnk.NewFile [.bkhd 8] = .err ∧
    ∃ ds, (bnk.File.mk (some 12) (some ⟨12, 1, [1], [(1, ⟨1, 0, 4⟩)]⟩)
        (some ⟨16, [⟨⟨1, 0, 4⟩, 12⟩]⟩)).DataSection = some ds ∧ ds.Wems ≠ [] := by
  constructor
  · exact C8_theorem.1 [.bkhd 8] (by decide) (Or.inl (by decide))
  · exact C8_theorem.2 [.bkhd 12, .didx 12 [⟨1, 0, 4⟩], .data 16] _ (by rfl)

/-! ### Claims C10 and C4: the loop editor -/

namespace bnk

theorem alistLookup_insert_self {α : Type} :
    ∀ (l : List (Nat × α)) (k : Nat) (v : α),
      alistLookup (alistInsert l k v) k = some v := by
  intro l
  induction l with
  | nil => intro k v; simp [alistInsert, alistLookup]
  | cons p rest ih =>
    intro k v
    rw [alistInsert]
    by_cases hk : p.1 = k
    · rw [if_pos hk, alistLookup, if_pos rfl]
    · rw [if_neg hk, alistLookup, if_neg hk]
      exact ih k v

end bnk

open wwise

/-- C10 (confirmed): for every index outside [0, wem_count) — and
likewise whenever the SoundBank has no parsed HIRC object section —
`LoopOf` returns the default `LoopValue{Loops := false, Value := 0}` and
`ReplaceLoopOf` returns without mutating any state: out-of-range loop
operations are silent no-ops, not errors or crashes. -/
theorem C10_theorem (bnkf : bnk.LoopFile) (i : Int) (v : bnk.LoopValue)
    (h : (∃ wems, bnkf.DataSection = some wems ∧
            (i < 0 ∨ (wems.length : Int) ≤ i)) ∨
         bnkf.ObjectSection = none) :
    bnkf.LoopOf i = ⟨false, 0⟩ ∧ bnkf.ReplaceLoopOf i v = bnkf := by
  cases hds : bnkf.DataSection with
  | none =>
    constructor
    · unfold bnk.LoopFile.LoopOf
      rw [hds]
    · unfold bnk.LoopFile.ReplaceLoopOf
      rw [hds]
  | some wems =>
    rcases h with ⟨wems', hsome, hout⟩ | hobj
    · rw [hds] at hsome
      have hww : wems' = wems := by
        injection hsome with hinj
        exact hinj.symm
      subst hww
      have hcond : ¬ (0 ≤ i ∧ i.toNat < wems'.length) := by
        rintro ⟨h0, hlt⟩
        omega
      constructor
      · unfold bnk.LoopFile.LoopOf
        rw [hds]
        simp only []
        rw [dif_neg hcond]
      · unfold bnk.LoopFile.ReplaceLoopOf
        rw [hds]
        simp only []
        rw [dif_neg hcond]
    · by_cases hcond : 0 ≤ i ∧ i.toNat < wems.length
      · constructor
        · unfold bnk.LoopFile.LoopOf
          rw [hds]
          simp only []
          rw [dif_pos hcond, hobj]
        · unfold bnk.LoopFile.ReplaceLoopOf
          rw [hds]
          simp only []
          rw [dif_pos hcond, hobj]
      · constructor
        · unfold bnk.LoopFile.LoopOf
          rw [hds]
          simp only []
          rw [dif_neg hcond]
        · unfold bnk.LoopFile.ReplaceLoopOf
          rw [hds]
          simp only []
          rw [dif_neg hcond]

/-- C10 witness: index 5 is out of range for a one-wem SoundBank; the
lookup yields the default value and the mutation is the identity. -/
theorem C10_witness :
    (bnk.LoopFile.mk (some [⟨⟨5, 0, 4⟩, 12⟩]) none).LoopOf 5 = ⟨false, 0⟩ ∧
    (bnk.LoopFile.mk (some [⟨⟨5, 0, 4⟩, 12⟩]) none).ReplaceLoopOf 5 ⟨true, 2⟩ =
      bnk.LoopFile.mk (some [⟨⟨5, 0, 4⟩, 12⟩]) none :=
  C10_theorem (bnk.LoopFile.mk (some [⟨⟨5, 0, 4⟩, 12⟩]) none) 5 ⟨true, 2⟩
    (Or.inl ⟨[⟨⟨5, 0, 4⟩, 12⟩], rfl, by decide⟩)

open wwise

/-- C4: the loop editor `ReplaceLoopOf` keeps both length fields
consistent with the payload it mutates.  Adding a loop to a sound
object that has none appends parameter type `0x3A` and the
little-endian value, increments `ParameterCount` by 1 and adds exactly
5 bytes to both the object descriptor length and the HIRC header
length; removing an existing loop decrements `ParameterCount` and
subtracts exactly 5 from both length fields; overwriting an existing
loop value changes neither length field. -/
theorem C4_theorem (bnkf : bnk.LoopFile) (i : Int) (wems : List Wem) (w : Wem)
    (os : bnk.ObjectHierarchySection) (obj : bnk.SfxVoiceSoundObject)
    (hds : bnkf.DataSection = some wems)
    (h0 : 0 ≤ i) (hilt : i.toNat < wems.length)
    (hw : wems[i.toNat]? = some w)
    (hos : bnkf.ObjectSection = some os)
    (hobj : bnk.alistLookup os.wemToObject w.Descriptor.WemId = some obj) :
    (∀ v : Nat, bnk.alistLookup os.loopOf w.Descriptor.WemId = none →
      obj.Structure.ParameterCount < 255 →
      obj.Descriptor.Length + 5 < 2 ^ 32 → os.HeaderLength + 5 < 2 ^ 32 →
      ∃ os2, (bnkf.ReplaceLoopOf i ⟨true, v⟩).ObjectSection = some os2 ∧
        os2.HeaderLength = os.HeaderLength + 5 ∧
        bnk.alistLookup os2.wemToObject w.Descriptor.WemId = some
          ⟨⟨obj.Descriptor.typeId, obj.Descriptor.Length + 5, obj.Descriptor.ObjectId⟩,
           ⟨obj.Structure.ParameterCount + 1,
            obj.Structure.ParameterTypes ++ [0x3A],
            obj.Structure.ParameterValues ++ [bnk.putUint32LE v]⟩⟩) ∧
    (∀ v0 vv j, bnk.alistLookup os.loopOf w.Descriptor.WemId = some v0 →
      obj.Structure.ParameterTypes.findIdx? (fun t => t = bnk.parameterLoopType) = some j →
      1 ≤ obj.Structure.ParameterCount → obj.Structure.ParameterCount < 256 →
      5 ≤ obj.Descriptor.Length → obj.Descriptor.Length < 2 ^ 32 →
      5 ≤ os.HeaderLength → os.HeaderLength < 2 ^ 32 →
      ∃ os2, (bnkf.ReplaceLoopOf i ⟨false, vv⟩).ObjectSection = some os2 ∧
        os2.HeaderLength = os.HeaderLength - 5 ∧
        bnk.alistLookup os2.wemToObject w.Descriptor.WemId = some
          ⟨⟨obj.Descriptor.typeId, obj.Descriptor.Length - 5, obj.Descriptor.ObjectId⟩,
           ⟨obj.Structure.ParameterCount - 1,
            obj.Structure.ParameterTypes.eraseIdx j,
            obj.Structure.ParameterValues.eraseIdx j⟩⟩) ∧
    (∀ v0 vv j, bnk.alistLookup os.loopOf w.Descriptor.WemId = some v0 → v0 ≠ vv →
      obj.Structure.ParameterTypes.findIdx? (fun t => t = bnk.parameterLoopType) = some j →
      ∃ os2, (bnkf.ReplaceLoopOf i ⟨true, vv⟩).ObjectSection = some os2 ∧
        os2.HeaderLength = os.HeaderLength ∧
        bnk.alistLookup os2.wemToObject w.Descriptor.WemId = some
          ⟨obj.Descriptor,
           ⟨obj.Structure.ParameterCount, obj.Structure.ParameterTypes,
            obj.Structure.ParameterValues.set j (bnk.putUint32LE vv)⟩⟩) := by
  have hg : wems.get ⟨i.toNat, hilt⟩ = w := (List.getElem?_eq_some.mp hw).2
  have h5 : bnk.PARAMETER_TYPE_BYTES + bnk.PARAMETER_VALUE_BYTES = 5 := rfl
  refine ⟨?_, ?_, ?_⟩
  · intro v hnone hcnt hdlen hhlen
    unfold bnk.LoopFile.ReplaceLoopOf
    rw [hds]
    simp only []
    rw [dif_pos ⟨h0, hilt⟩]
    simp only [hg]
    rw [hos]
    simp only [hnone, hobj]
    rw [if_neg (by simp)]
    rw [if_neg (by simp)]
    rw [if_neg (by simp)]
    refine ⟨_, rfl, ?_, ?_⟩
    · show (os.HeaderLength + (bnk.PARAMETER_TYPE_BYTES + bnk.PARAMETER_VALUE_BYTES)) % 2 ^ 32 =
        os.HeaderLength + 5
      rw [h5]
      exact Nat.mod_eq_of_lt hhlen
    · rw [bnk.alistLookup_insert_self]
      rw [h5]
      rw [Nat.mod_eq_of_lt hdlen, Nat.mod_eq_of_lt (by omega)]
      rfl
  · intro v0 vv j hsome hj hc1 hc2 hd1 hd2 hh1 hh2
    unfold bnk.LoopFile.ReplaceLoopOf
    rw [hds]
    simp only []
    rw [dif_pos ⟨h0, hilt⟩]
    simp only [hg]
    rw [hos]
    simp only [hsome, hobj]
    rw [if_neg (by simp)]
    rw [if_pos True.intro]
    simp only [hj]
    refine ⟨_, rfl, ?_, ?_⟩
    · show (os.HeaderLength + (2 ^ 32 - (bnk.PARAMETER_TYPE_BYTES + bnk.PARAMETER_VALUE_BYTES))) %
        2 ^ 32 = os.HeaderLength - 5
      rw [h5]
      omega
    · rw [bnk.alistLookup_insert_self]
      rw [h5]
      have hL : (obj.Descriptor.Length + (2 ^ 32 - 5)) % 2 ^ 32 = obj.Descriptor.Length - 5 := by
        omega
      have hC : (obj.Structure.ParameterCount + 255) % 256 =
          obj.Structure.ParameterCount - 1 := by omega
      rw [hL, hC]
  · intro v0 vv j hsome hne hj
    unfold bnk.LoopFile.ReplaceLoopOf
    rw [hds]
    simp only []
    rw [dif_pos ⟨h0, hilt⟩]
    simp only [hg]
    rw [hos]
    simp only [hsome, hobj]
    rw [if_neg (by simp [hne])]
    rw [if_neg (by simp)]
    rw [if_pos (Option.isSome_some : (some v0).isSome = true)]
    simp only [hj]
    exact ⟨_, rfl, rfl, by rw [bnk.alistLookup_insert_self]⟩

theorem C4_witness :
    (∃ os2, ((bnk.LoopFile.mk (some [⟨⟨7, 0, 4⟩, 12⟩])
        (some ⟨100, [], [(7, ⟨⟨2, 20, 9⟩, ⟨0, [], []⟩⟩)]⟩)).ReplaceLoopOf 0
        ⟨true, 2⟩).ObjectSection = some os2 ∧
      os2.HeaderLength = 105 ∧
      bnk.alistLookup os2.wemToObject 7 = some
        ⟨⟨2, 25, 9⟩, ⟨1, [0x3A], [bnk.putUint32LE 2]⟩⟩) ∧
    (∃ os2, ((bnk.LoopFile.mk (some [⟨⟨7, 0, 4⟩, 12⟩])
        (some ⟨100, [(7, 1)], [(7, ⟨⟨2, 20, 9⟩, ⟨1, [0x3A], [[1, 0, 0, 0]]⟩⟩)]⟩)).ReplaceLoopOf 0
        ⟨false, 0⟩).ObjectSection = some os2 ∧
      os2.HeaderLength = 95 ∧
      bnk.alistLookup os2.wemToObject 7 = some ⟨⟨2, 15, 9⟩, ⟨0, [], []⟩⟩) ∧
    (∃ os2, ((bnk.LoopFile.mk (some [⟨⟨7, 0, 4⟩, 12⟩])
        (some ⟨100, [(7, 1)], [(7, ⟨⟨2, 20, 9⟩, ⟨1, [0x3A], [[1, 0, 0, 0]]⟩⟩)]⟩)).ReplaceLoopOf 0
        ⟨true, 2⟩).ObjectSection = some os2 ∧
      os2.HeaderLength = 100 ∧
      bnk.alistLookup os2.wemToObject 7 = some
        ⟨⟨2, 20, 9⟩, ⟨1, [0x3A], [bnk.putUint32LE 2]⟩⟩) := by
  refine ⟨?_, ?_, ?_⟩
  · exact (C4_theorem (bnk.LoopFile.mk (some [⟨⟨7, 0, 4⟩, 12⟩])
      (some ⟨100, [], [(7, ⟨⟨2, 20, 9⟩, ⟨0, [], []⟩⟩)]⟩)) 0 [⟨⟨7, 0, 4⟩, 12⟩] ⟨⟨7, 0, 4⟩, 12⟩
      ⟨100, [], [(7, ⟨⟨2, 20, 9⟩, ⟨0, [], []⟩⟩)]⟩ ⟨⟨2, 20, 9⟩, ⟨0, [], []⟩⟩
      rfl (by decide) (by decide) rfl rfl rfl).1 2 rfl (by decide) (by decide) (by decide)
  · exact (C4_theorem (bnk.LoopFile.mk (some [⟨⟨7, 0, 4⟩, 12⟩])
      (some ⟨100, [(7, 1)], [(7, ⟨⟨2, 20, 9⟩, ⟨1, [0x3A], [[1, 0, 0, 0]]⟩⟩)]⟩)) 0
      [⟨⟨7, 0, 4⟩, 12⟩] ⟨⟨7, 0, 4⟩, 12⟩
      ⟨100, [(7, 1)], [(7, ⟨⟨2, 20, 9⟩, ⟨1, [0x3A], [[1, 0, 0, 0]]⟩⟩)]⟩
      ⟨⟨2, 20, 9⟩, ⟨1, [0x3A], [[1, 0, 0, 0]]⟩⟩
      rfl (by decide) (by decide) rfl rfl rfl).2.1 1 0 0 rfl rfl
      (by decide) (by decide) (by decide) (by decide) (by decide) (by decide)
  · exact (C4_theorem (bnk.LoopFile.mk (some [⟨⟨7, 0, 4⟩, 12⟩])
      (some ⟨100, [(7, 1)], [(7, ⟨⟨2, 20, 9⟩, ⟨1, [0x3A], [[1, 0, 0, 0]]⟩⟩)]⟩)) 0
      [⟨⟨7, 0, 4⟩, 12⟩] ⟨⟨7, 0, 4⟩, 12⟩
      ⟨100, [(7, 1)], [(7, ⟨⟨2, 20, 9⟩, ⟨1, [0x3A], [[1, 0, 0, 0]]⟩⟩)]⟩
      ⟨⟨2, 20, 9⟩, ⟨1, [0x3A], [[1, 0, 0, 0]]⟩⟩
      rfl (by decide) (by decide) rfl rfl rfl).2.2 1 2 0 rfl (by decide) rfl

/-! ### Claim C7: double serialization of a pck container -/

namespace util

theorem copyGoF_spec : ∀ (f : Nat) (r : ResettingReader), r.window.length - r.pos < f →
    copyGoF f r =
      (r.window.drop r.pos, ⟨r.window, 0⟩, ((r.window.length - r.pos : Nat) : Int)) := by
  intro f
  induction f with
  | zero => intro r h; exact absurd h (Nat.not_lt_zero _)
  | succ f ih =>
    intro r h
    by_cases hle : r.window.length ≤ r.pos
    · have hrr : RRread r 32768 = ([], { r with pos := 0 }, true) := by
        rw [RRread, if_pos hle]
      rw [copyGoF, hrr]
      rw [List.drop_eq_nil_of_le hle, Nat.sub_eq_zero_of_le hle]
      rfl
    · have hrr : RRread r 32768 =
          ((r.window.drop r.pos).take (min 32768 (r.window.length - r.pos)),
           { r with pos := r.pos + min 32768 (r.window.length - r.pos) }, false) := by
        rw [RRread, if_neg hle]
      rw [copyGoF, hrr]
      simp only []
      rw [ih { r with pos := r.pos + min 32768 (r.window.length - r.pos) } (by simp; omega)]
      simp only [Prod.mk.injEq, true_and, and_true]
      refine ⟨?_, ?_⟩
      · show (r.window.drop r.pos).take (min 32768 (r.window.length - r.pos)) ++
          r.window.drop (r.pos + min 32768 (r.window.length - r.pos)) = r.window.drop r.pos
        have hd : r.window.drop (r.pos + min 32768 (r.window.length - r.pos)) =
            (r.window.drop r.pos).drop (min 32768 (r.window.length - r.pos)) := by
          rw [List.drop_drop]
        rw [hd, List.take_append_drop]
      · simp only [List.length_take, List.length_drop]
        omega

theorem copyGo_spec (r : ResettingReader) :
    copyGo r = (r.window.drop r.pos, ⟨r.window, 0⟩, ((r.window.length - r.pos : Nat) : Int)) :=
  copyGoF_spec _ r (by omega)

end util

namespace pck

theorem writeWems_pos0 : ∀ (rs : List util.ResettingReader), (∀ r ∈ rs, r.pos = 0) →
    writeWems rs = ((rs.map util.ResettingReader.window).flatten, rs,
      (((rs.map (fun r => r.window.length)).sum : Nat) : Int)) := by
  intro rs
  induction rs with
  | nil => intro _; rfl
  | cons r rest ih =>
    intro h
    have hr : r.pos = 0 := h r (List.mem_cons_self r rest)
    have hzero : (⟨r.window, 0⟩ : util.ResettingReader) = r := by
      cases r with
      | mk w p => simp only at hr; rw [hr]
    rw [writeWems, util.copyGo_spec, ih (fun x hx => h x (List.mem_cons_of_mem r hx))]
    rw [hzero]
    simp only [Prod.mk.injEq, true_and, and_true]
    refine ⟨?_, ?_⟩
    · rw [hr, List.drop_zero, List.map_cons, List.flatten_cons]
    · rw [hr]
      simp only [Nat.sub_zero, List.map_cons, List.sum_cons]
      push_cast
      ring

end pck

/-- C7: serializing a pck container twice in succession produces
byte-identical output and the same reported total.  Every wem byte
source is a restartable window whose cursor starts at the window start;
the first `WriteTo` drains each reader to end-of-stream, which rewinds
it to the window start, so the container state returned by the first
serialization equals the original and the second serialization emits
the same bytes and count. -/
theorem C7_theorem (f : pck.File) (h : ∀ r ∈ f.wems, r.pos = 0) :
    (f.WriteTo).2.2 = f ∧
    ((f.WriteTo).2.2).WriteTo.1 = (f.WriteTo).1 ∧
    ((f.WriteTo).2.2).WriteTo.2.1 = (f.WriteTo).2.1 := by
  have hcore : (f.WriteTo).2.2 = f := by
    show { f with wems := (pck.writeWems f.wems).2.1 } = f
    rw [pck.writeWems_pos0 f.wems h]
  exact ⟨hcore, by rw [hcore], by rw [hcore]⟩

theorem C7_witness :
    ((pck.File.mk ⟨[65, 75, 80, 75], 60, List.replicate 44 0, 1⟩
        [⟨3, ⟨7, 0, 3⟩, 0⟩] 5 [⟨[1, 2, 3], 0⟩]).WriteTo).2.2 =
      pck.File.mk ⟨[65, 75, 80, 75], 60, List.replicate 44 0, 1⟩
        [⟨3, ⟨7, 0, 3⟩, 0⟩] 5 [⟨[1, 2, 3], 0⟩] ∧
    (((pck.File.mk ⟨[65, 75, 80, 75], 60, List.replicate 44 0, 1⟩
        [⟨3, ⟨7, 0, 3⟩, 0⟩] 5 [⟨[1, 2, 3], 0⟩]).WriteTo).2.2).WriteTo.1 =
      ((pck.File.mk ⟨[65, 75, 80, 75], 60, List.replicate 44 0, 1⟩
        [⟨3, ⟨7, 0, 3⟩, 0⟩] 5 [⟨[1, 2, 3], 0⟩]).WriteTo).1 ∧
    (((pck.File.mk ⟨[65, 75, 80, 75], 60, List.replicate 44 0, 1⟩
        [⟨3, ⟨7, 0, 3⟩, 0⟩] 5 [⟨[1, 2, 3], 0⟩]).WriteTo).2.2).WriteTo.2.1 =
      ((pck.File.mk ⟨[65, 75, 80, 75], 60, List.replicate 44 0, 1⟩
        [⟨3, ⟨7, 0, 3⟩, 0⟩] 5 [⟨[1, 2, 3], 0⟩]).WriteTo).2.1 :=
  C7_theorem (pck.File.mk ⟨[65, 75, 80, 75], 60, List.replicate 44 0, 1⟩
    [⟨3, ⟨7, 0, 3⟩, 0⟩] 5 [⟨[1, 2, 3], 0⟩]) (by decide)
